import Mathlib

/-!
# Verilator test drivers of the interpolation cores

Shallow embedding of the two C++ drivers `bench/cpp/icompare.cpp` and
`rtl/quadratic/quadinterp.cpp`.

* Machine integers are mathematical integers with explicit reduction modulo
  `2^w`.  `int` is 32 bits wide and `long` is 64 bits wide: these are the widths
  the shift counts `32-IBITS` and `64-INW` of the sources are written for.
  A left shift of a signed value wraps (two's complement).
* The Verilated core is a black box: an arbitrary state type with an arbitrary
  `eval` function and arbitrary output ports.  Its input ports are written by
  the driver only.
* Doubles are IEEE 754 binary64 values, every operation rounded to nearest,
  ties to even.
* Every `fwrite` writes all it is asked to write.
* The synthesis of the test sine wave uses `cos` on doubles; the truncated
  sample `(int)dv` of a tick is a parameter `stim` of the drivers.
* Waveform tracing and `printf` have no effect on the files or on the core and
  are left out.
-/

namespace Interp

/-! ## Machine integers -/

/-- Two's-complement value of the low `w` bits of `x`. -/
def toSigned (w : Nat) (x : Int) : Int :=
  let r := x % 2 ^ w
  if r < 2 ^ (w - 1) then r else r - 2 ^ w

/-- Conversion of a signed integer to `unsigned long`, as a natural number. -/
def toULong (x : Int) : Nat := (x % 2 ^ 64).toNat

/-- Size in bytes of `int` and of `int32_t`. -/
def sizeofInt : Nat := 4

/-- Size in bytes of `long`. -/
def sizeofLong : Nat := 8

/-- Post-increment `x++` of an `unsigned`. -/
def incU32 (x : Nat) : Nat := (x + 1) % 2 ^ 32

/-- The two statements `v = (int)(v << (32-bits)); v >>= (32-bits);` on an
`int` variable `v` (icompare.cpp, lines 214 and 217). -/
def signExtend32 (bits : Nat) (v : Int) : Int :=
  (toSigned 32 (v * 2 ^ (32 - bits))) >>> (32 - bits)

/-- The expression `x & ((1ul<<bits)-1)` on an `int` operand `x`. -/
def maskBits (bits : Nat) (x : Int) : Nat := toULong x &&& (2 ^ bits - 1)

/-! ## Output files -/

/-- What one successful `fwrite` call appends to a stream: `bytes` bytes that
hold the integer objects `objs`. -/
structure Chunk where
  bytes : Nat
  objs : List Int
deriving DecidableEq

/-- A stream opened for writing: the chunks appended so far. -/
abbrev FILE := List Chunk

/-- The call `fwrite(buf, size, nmemb, fp)` where `buf` points to integer
objects of `elemBytes` bytes each. -/
def fwrite (elemBytes : Nat) (buf : List Int) (size nmemb : Nat) (fp : FILE) : FILE :=
  fp ++ [{ bytes := size * nmemb, objs := buf.take (size * nmemb / elemBytes) }]

/-- Length of a file in bytes. -/
def fileBytes (fp : FILE) : Nat := (fp.map Chunk.bytes).sum

/-- Number of integer values written to a file. -/
def fileValues (fp : FILE) : Nat := (fp.map (fun c => c.objs.length)).sum

/-- Exit status `EXIT_FAILURE`. -/
def EXIT_FAILURE : Nat := 1

/-- The prologue of `main` in icompare.cpp (lines 60-73).  `fopenDbg` and
`fopenSrc` are the results of the two `fopen` calls (`none` is `NULL`).  The
result is either the status the process exits with, or the two stream pointers
the simulation is entered with. -/
def icompareOpen (fopenDbg fopenSrc : Option FILE) :
    Except Nat (Option FILE × Option FILE) :=
  let dbg_fp := fopenDbg
  if dbg_fp = none then .error EXIT_FAILURE
  else
    let src_fp := fopenSrc
    if dbg_fp = none then .error EXIT_FAILURE
    else .ok (dbg_fp, src_fp)

/-- The prologue of `main` in quadinterp.cpp (lines 70-77). -/
def quadinterpOpen (fopenDbg : Option FILE) : Except Nat (Option FILE) :=
  let dbg_fp := fopenDbg
  if dbg_fp = none then .error EXIT_FAILURE
  else .ok dbg_fp

/-! ## The simulated core -/

/-- Input ports of either core. -/
structure InPorts where
  i_clk : Nat
  i_ce : Nat
  i_step : Nat
  i_data : Nat
deriving DecidableEq

/-- Output ports of `Vicomparison` read by the driver. -/
structure IcOut where
  o_ln_ce : Nat
  o_nn_data : Nat
  o_ln_data : Nat
  o_qf_ce : Nat
  o_qf_data : Nat
  o_qm_ce : Nat
  o_qm_data : Nat
  o_qi_ce : Nat
  o_qi_data : Nat
deriving DecidableEq

/-- Output ports and internal registers of `Vquadinterp` read by the driver. -/
structure QOut where
  o_ce : Nat
  o_data : Nat
  ls_bv : Nat
  lp_bv : Nat
  lp_cv : Nat
deriving DecidableEq

/-- A Verilated model: `eval` settles the design for the current inputs, `out`
reads its output ports. -/
structure Core (σ O : Type) where
  eval : InPorts → σ → σ
  out : σ → O

/-- A core without state whose output ports always read `o`. -/
def constCore {O : Type} (o : O) : Core Unit O :=
  { eval := fun _ _ => (), out := fun _ => o }

/-- The three `eval` calls of one tick: inputs toggled in with the clock
low, clock high, clock low. -/
def toggleClock {σ O : Type} (M : Core σ O) (i_ce i_step i_data : Nat) (c : σ) : σ :=
  let c := M.eval { i_clk := 0, i_ce := i_ce, i_step := i_step, i_data := i_data } c
  let c := M.eval { i_clk := 1, i_ce := i_ce, i_step := i_step, i_data := i_data } c
  M.eval { i_clk := 0, i_ce := i_ce, i_step := i_step, i_data := i_data } c

/-- The loop `while (cond) body`, run with a bound on the number of
condition tests; `none` when the bound is reached. -/
def whileLoop {S : Type} (cond : S → Bool) (body : S → S) : Nat → S → Option S
  | 0, _ => none
  | fuel + 1, s => if cond s then whileLoop cond body fuel (body s) else some s

/-- Pretended clock rate: 100 MHz. -/
def CLOCKRATE_HZ : Nat := 100000000

/-- The bound `MAXTICKS = 16*32*iclocks`, an `unsigned`. -/
def MAXTICKS (iclocks : Nat) : Nat := (16 * 32 * iclocks) % 2 ^ 32

/-! ## icompare.cpp -/

namespace ICompare

/-- Clocks per input sample. -/
def iclocks : Nat := 160

/-- Number of bits of the samples. -/
def IBITS : Nat := 28

/-- Largest sample magnitude, `(1<<(IBITS-1))-1`. -/
def MAXIV : Nat := 2 ^ (IBITS - 1) - 1

/-- What the loop of `main` changes: the counters `clocks` and `inow`, the
input ports `tb.i_ce` and `tb.i_data`, the array `vals`, the state of the core
and the two streams. -/
structure State (σ : Type) where
  clocks : Nat
  inow : Nat
  i_ce : Nat
  i_data : Nat
  vals : List Int
  tb : σ
  dbg_fp : FILE
  src_fp : FILE

/-- State on entry to the loop, both streams open and empty. -/
def init {σ : Type} (tb : σ) : State σ :=
  { clocks := 1, inow := 0, i_ce := 0, i_data := 0,
    vals := List.replicate 5 0, tb := tb, dbg_fp := [], src_fp := [] }

/-- Lines 151-183: count the tick and present a new sample every `iclocks`
ticks.  `stim clocks` is `(int)dv`, the truncated sine sample of this tick. -/
def advance {σ : Type} (stim : Nat → Int) (iclocks : Nat) (s : State σ) : State σ :=
  let s := { s with clocks := incU32 s.clocks, inow := incU32 s.inow }
  if s.inow ≥ iclocks then
    let os := stim s.clocks
    { s with inow := 0, i_data := maskBits IBITS os, i_ce := 1,
             src_fp := fwrite sizeofInt [os] 1 sizeofInt s.src_fp }
  else
    { s with i_ce := 0 }

/-- Lines 205-249: write a record when `o_ln_ce` is set, then capture the
outputs that are valid. -/
def record {σ : Type} (o : IcOut) (s : State σ) : State σ :=
  let s := if o.o_ln_ce ≠ 0 then
      let vals := (s.vals.set 0 (toSigned 32 o.o_nn_data)).map (signExtend32 IBITS)
      { s with vals := vals, dbg_fp := fwrite sizeofInt vals sizeofInt 5 s.dbg_fp }
    else s
  let s := if o.o_ln_ce ≠ 0 then { s with vals := s.vals.set 1 (toSigned 32 o.o_ln_data) } else s
  let s := if o.o_qf_ce ≠ 0 then { s with vals := s.vals.set 2 (toSigned 32 o.o_qf_data) } else s
  let s := if o.o_qm_ce ≠ 0 then { s with vals := s.vals.set 3 (toSigned 32 o.o_qm_data) } else s
  if o.o_qi_ce ≠ 0 then { s with vals := s.vals.set 4 (toSigned 32 o.o_qi_data) } else s

/-- Lines 151-201: the new inputs and the three `eval` calls. -/
def tick {σ : Type} (M : Core σ IcOut) (stim : Nat → Int) (i_step iclocks : Nat)
    (s : State σ) : State σ :=
  let s := advance stim iclocks s
  { s with tb := toggleClock M s.i_ce i_step s.i_data s.tb }

/-- One iteration of the loop (lines 151-249). -/
def body {σ : Type} (M : Core σ IcOut) (stim : Nat → Int) (i_step iclocks : Nat)
    (s : State σ) : State σ :=
  let s := tick M stim i_step iclocks s
  record (M.out s.tb) s

/-- The loop of lines 150-250 with a bound on the number of condition tests. -/
def simulate {σ : Type} (M : Core σ IcOut) (stim : Nat → Int) (i_step iclocks : Nat)
    (fuel : Nat) (tb : σ) : Option (State σ) :=
  whileLoop (fun s => decide (s.clocks < MAXTICKS iclocks)) (body M stim i_step iclocks)
    fuel (init tb)

/-- State after the first `n` iterations. -/
def stateAt {σ : Type} (M : Core σ IcOut) (stim : Nat → Int) (i_step iclocks : Nat)
    (tb : σ) : Nat → State σ
  | 0 => init tb
  | n + 1 => body M stim i_step iclocks (stateAt M stim i_step iclocks tb n)

/-- Output ports as the driver reads them in iteration `n` (counted from 1). -/
def outAt {σ : Type} (M : Core σ IcOut) (stim : Nat → Int) (i_step iclocks : Nat)
    (tb : σ) (n : Nat) : IcOut :=
  M.out (stateAt M stim i_step iclocks tb n).tb

/-- The value `x` is the sign-extended `data` of the latest iteration `1 ... n`
on which `ce` was set, or `0` when `ce` was set on none of them. -/
def LatestCaptured (ce data : Nat → Nat) (n : Nat) (x : Int) : Prop :=
  (∃ m, 1 ≤ m ∧ m ≤ n ∧ ce m ≠ 0 ∧ (∀ j, m < j → j ≤ n → ce j = 0) ∧
      x = toSigned IBITS (data m)) ∨
    ((∀ j, 1 ≤ j → j ≤ n → ce j = 0) ∧ x = 0)

/-- The value held by a slot after iteration `n`: the sign-extended `data` of
the latest iteration `1 ... n` on which `ce` was set, `0` when there is none. -/
def lastCaptured (ce data : Nat → Nat) : Nat → Int
  | 0 => 0
  | n + 1 => if ce (n + 1) ≠ 0 then toSigned IBITS (data (n + 1)) else lastCaptured ce data n

/-- The record that iteration `n + 1` writes when `o_ln_ce` is set. -/
def recordAt {σ : Type} (M : Core σ IcOut) (stim : Nat → Int) (i_step iclocks : Nat)
    (tb : σ) (n : Nat) : Chunk :=
  { bytes := 20,
    objs := [toSigned 28 (outAt M stim i_step iclocks tb (n + 1)).o_nn_data,
      lastCaptured (fun k => (outAt M stim i_step iclocks tb k).o_ln_ce)
        (fun k => (outAt M stim i_step iclocks tb k).o_ln_data) n,
      lastCaptured (fun k => (outAt M stim i_step iclocks tb k).o_qf_ce)
        (fun k => (outAt M stim i_step iclocks tb k).o_qf_data) n,
      lastCaptured (fun k => (outAt M stim i_step iclocks tb k).o_qm_ce)
        (fun k => (outAt M stim i_step iclocks tb k).o_qm_data) n,
      lastCaptured (fun k => (outAt M stim i_step iclocks tb k).o_qi_ce)
        (fun k => (outAt M stim i_step iclocks tb k).o_qi_data) n] }

/-- Number of the iterations `1 ... n` on which `o_ln_ce` was set. -/
def readyCount {σ : Type} (M : Core σ IcOut) (stim : Nat → Int) (i_step iclocks : Nat)
    (tb : σ) (n : Nat) : Nat :=
  (List.range n).countP (fun k => decide ((outAt M stim i_step iclocks tb (k + 1)).o_ln_ce ≠ 0))

/-- Number of the iterations `1 ... n` on which `i_ce` was set. -/
def sampleCount {σ : Type} (M : Core σ IcOut) (stim : Nat → Int) (i_step iclocks : Nat)
    (tb : σ) (n : Nat) : Nat :=
  (List.range n).countP (fun k => decide ((stateAt M stim i_step iclocks tb (k + 1)).i_ce = 1))

end ICompare

/-! ## quadinterp.cpp -/

namespace QuadInterp

/-- Clocks per input sample. -/
def iclocks : Nat := 40

/-- Number of bits of the input samples. -/
def INW : Nat := 25

/-- Number of bits of the output samples. -/
def OBITS : Nat := 28

/-- Largest sample magnitude, `(1<<(INW-1))-1`. -/
def MAXIV : Nat := 2 ^ (INW - 1) - 1

/-- What the loop of `main` changes: the counters `clocks` and `inow`, the
input ports `tb.i_ce` and `tb.i_data`, the state of the core and the stream. -/
structure State (σ : Type) where
  clocks : Nat
  inow : Nat
  i_ce : Nat
  i_data : Nat
  tb : σ
  dbg_fp : FILE

/-- State on entry to the loop, the stream open and empty. -/
def init {σ : Type} (tb : σ) : State σ :=
  { clocks := 1, inow := 0, i_ce := 0, i_data := 0, tb := tb, dbg_fp := [] }

/-- Lines 182-210: count the tick and present a new sample every `iclocks`
ticks.  `stim clocks` is `(int)dv`, the truncated sine sample of this tick. -/
def advance {σ : Type} (stim : Nat → Int) (iclocks : Nat) (s : State σ) : State σ :=
  let s := { s with clocks := incU32 s.clocks, inow := incU32 s.inow }
  if s.inow ≥ iclocks then
    let os := stim s.clocks
    { s with inow := 0, i_data := maskBits INW os, i_ce := 1 }
  else
    { s with i_ce := 0 }

/-- Lines 234-258: the array `long vals[6]` when it is written.  `junk` is
the content of the uninitialised element `vals[5]`. -/
def captured (i_data : Nat) (o : QOut) (junk : Int) : List Int :=
  let vals : List Int := [i_data, o.o_data, o.ls_bv, o.lp_bv, o.lp_cv, junk]
  let vals := vals.set 0 (toSigned 32 (toSigned 64 (vals.getD 0 0 * 2 ^ (64 - INW))))
  let vals := vals.set 1 (toSigned 32 (toSigned 64 (vals.getD 1 0 * 2 ^ (64 - OBITS))))
  let vals := vals.set 2 (toSigned 32 (toSigned 64 (vals.getD 1 0 * 2 ^ (64 - OBITS))))
  let vals := vals.set 3 (toSigned 32 (toSigned 64 (vals.getD 1 0 * 2 ^ (64 - OBITS))))
  let vals := vals.set 4 (toSigned 32 (toSigned 64 (vals.getD 1 0 * 2 ^ (64 - OBITS))))
  let vals := vals.set 0 (vals.getD 0 0 >>> (64 - INW))
  let vals := vals.set 1 (vals.getD 1 0 >>> (64 - OBITS))
  let vals := vals.set 2 (vals.getD 2 0 >>> (64 - OBITS))
  let vals := vals.set 3 (vals.getD 3 0 >>> (64 - OBITS))
  let vals := vals.set 4 (vals.getD 4 0 >>> (64 - OBITS))
  vals.set 5 (vals.getD 5 0 >>> (64 - OBITS))

/-- Lines 232-272: write a record when `o_ce` is set. -/
def record {σ : Type} (o : QOut) (junk : Int) (s : State σ) : State σ :=
  if o.o_ce ≠ 0 then
    { s with dbg_fp := fwrite sizeofLong (captured s.i_data o junk) sizeofLong 2 s.dbg_fp }
  else s

/-- Lines 182-228: the new inputs and the three `eval` calls. -/
def tick {σ : Type} (M : Core σ QOut) (stim : Nat → Int) (i_step iclocks : Nat)
    (s : State σ) : State σ :=
  let s := advance stim iclocks s
  { s with tb := toggleClock M s.i_ce i_step s.i_data s.tb }

/-- One iteration of the loop (lines 182-272).  `junk clocks` is the content
of the uninitialised `vals[5]` in this iteration. -/
def body {σ : Type} (M : Core σ QOut) (stim : Nat → Int) (junk : Nat → Int)
    (i_step iclocks : Nat) (s : State σ) : State σ :=
  let s := tick M stim i_step iclocks s
  record (M.out s.tb) (junk s.clocks) s

/-- The loop of lines 181-273 with a bound on the number of condition tests. -/
def simulate {σ : Type} (M : Core σ QOut) (stim : Nat → Int) (junk : Nat → Int)
    (i_step iclocks : Nat) (fuel : Nat) (tb : σ) : Option (State σ) :=
  whileLoop (fun s => decide (s.clocks < MAXTICKS iclocks)) (body M stim junk i_step iclocks)
    fuel (init tb)

/-- State after the first `n` iterations. -/
def stateAt {σ : Type} (M : Core σ QOut) (stim : Nat → Int) (junk : Nat → Int)
    (i_step iclocks : Nat) (tb : σ) : Nat → State σ
  | 0 => init tb
  | n + 1 => body M stim junk i_step iclocks (stateAt M stim junk i_step iclocks tb n)

/-- Output ports as the driver reads them in iteration `n` (counted from 1). -/
def outAt {σ : Type} (M : Core σ QOut) (stim : Nat → Int) (junk : Nat → Int)
    (i_step iclocks : Nat) (tb : σ) (n : Nat) : QOut :=
  M.out (stateAt M stim junk i_step iclocks tb n).tb

/-- The record that iteration `n + 1` writes when `o_ce` is set. -/
def recordAt {σ : Type} (M : Core σ QOut) (stim : Nat → Int) (junk : Nat → Int)
    (i_step iclocks : Nat) (tb : σ) (n : Nat) : Chunk :=
  { bytes := sizeofLong * 2,
    objs := (captured (stateAt M stim junk i_step iclocks tb (n + 1)).i_data
      (outAt M stim junk i_step iclocks tb (n + 1))
      (junk (stateAt M stim junk i_step iclocks tb (n + 1)).clocks)).take 2 }

/-- Number of the iterations `1 ... n` on which `o_ce` was set. -/
def readyCount {σ : Type} (M : Core σ QOut) (stim : Nat → Int) (junk : Nat → Int)
    (i_step iclocks : Nat) (tb : σ) (n : Nat) : Nat :=
  (List.range n).countP
    (fun k => decide ((outAt M stim junk i_step iclocks tb (k + 1)).o_ce ≠ 0))

/-- Number of the iterations `1 ... n` on which `i_ce` was set. -/
def sampleCount {σ : Type} (M : Core σ QOut) (stim : Nat → Int) (junk : Nat → Int)
    (i_step iclocks : Nat) (tb : σ) (n : Nat) : Nat :=
  (List.range n).countP
    (fun k => decide ((stateAt M stim junk i_step iclocks tb (k + 1)).i_ce = 1))

end QuadInterp

/-! ## The step constant -/

/-- Nearest integer to a rational, ties to the even one. -/
def roundHalfEven (q : ℚ) : ℤ :=
  let f := ⌊q⌋
  let r := q - f
  if r < 1 / 2 then f else if 1 / 2 < r then f + 1 else if f % 2 = 0 then f else f + 1

/-- The `double` nearest to a rational (IEEE 754 binary64, round to nearest,
ties to even): 53 significant bits, the last one worth `2 ^ (e - 52)` where
`2 ^ e ≤ |q| < 2 ^ (e + 1)`.  Every result of a conversion, product or quotient
on doubles is the exact result rounded so.  The exponent range is not modelled:
the values of the drivers lie between `2 ^ (-27)` and `2 ^ 32`. -/
def toDouble (q : ℚ) : ℚ :=
  if q = 0 then 0
  else
    let e := Int.log 2 |q|
    roundHalfEven (q / 2 ^ (e - 52)) * 2 ^ (e - 52)

/-- The conversion `(unsigned int)d` of a double: the fraction is dropped;
`none` when the result does not fit (the behaviour is then undefined). -/
def toUnsigned (d : ℚ) : Option Nat :=
  let t := if 0 ≤ d then ⌊d⌋ else ⌈d⌉
  if 0 ≤ t ∧ t < 2 ^ 32 then some t.toNat else none

/-- The computation of `tb.i_step` from the two rates (icompare.cpp lines
86-96, quadinterp.cpp lines 90-103):
`dstep = (double)input_rate / (double)output_rate;`
`dstep = dstep * 4.0 * (1ul<<30);  tb.i_step = (unsigned int)dstep;` -/
def stepOfRates (input_rate output_rate : Int) : Option Nat :=
  let dstep := toDouble (toDouble input_rate / toDouble output_rate)
  let dstep := toDouble (toDouble (dstep * 4) * toDouble ((2 ^ 30 : Nat) : ℚ))
  toUnsigned dstep

/-- The rate `long input_rate = CLOCKRATE_HZ/iclocks;` of icompare.cpp. -/
def ICompare.input_rate : Int := ((CLOCKRATE_HZ / ICompare.iclocks : Nat) : Int)

/-- The rate `long output_rate = 82000000;` of icompare.cpp. -/
def ICompare.output_rate : Int := 82000000

/-- The two assertions of icompare.cpp (lines 82-83); the first one compares
`(unsigned)output_rate`. -/
def ICompare.assertsPass (input_rate output_rate : Int) : Bool :=
  decide ((output_rate % 2 ^ 32).toNat < CLOCKRATE_HZ) && decide (input_rate < output_rate)

/-- The value icompare.cpp stores in `tb.i_step`; `none` when an assertion
fails or the conversion is undefined. -/
def ICompare.i_step : Option Nat :=
  if ICompare.assertsPass ICompare.input_rate ICompare.output_rate then
    stepOfRates ICompare.input_rate ICompare.output_rate
  else none

/-- The rate `long input_rate = CLOCKRATE_HZ/iclocks;` of quadinterp.cpp. -/
def QuadInterp.input_rate : Int := ((CLOCKRATE_HZ / QuadInterp.iclocks : Nat) : Int)

/-- The rate `long output_rate = 82000000;` of quadinterp.cpp. -/
def QuadInterp.output_rate : Int := 82000000

/-- The two assertions of quadinterp.cpp (lines 86-87); the first one compares
as `unsigned long`. -/
def QuadInterp.assertsPass (input_rate output_rate : Int) : Bool :=
  decide (toULong output_rate < CLOCKRATE_HZ) && decide (input_rate < output_rate)

/-- The value quadinterp.cpp stores in `tb.i_step`; `none` when an assertion
fails or the conversion is undefined. -/
def QuadInterp.i_step : Option Nat :=
  if QuadInterp.assertsPass QuadInterp.input_rate QuadInterp.output_rate then
    stepOfRates QuadInterp.input_rate QuadInterp.output_rate
  else none

/-! ## Machine arithmetic -/

theorem signExtend32_eq (v : Int) : signExtend32 28 v = toSigned 28 v := by
  simp only [signExtend32, toSigned, Int.shiftRight_eq_div_pow]
  norm_num
  split_ifs <;> omega

theorem toSigned28_bounds (v : Int) : -2 ^ 27 ≤ toSigned 28 v ∧ toSigned 28 v < 2 ^ 27 := by
  simp only [toSigned]
  norm_num
  split_ifs <;> omega

theorem toSigned28_emod (v : Int) : toSigned 28 v % 2 ^ 28 = v % 2 ^ 28 := by
  simp only [toSigned]
  norm_num
  split_ifs <;> omega

theorem toSigned28_idem (v : Int) : toSigned 28 (toSigned 28 v) = toSigned 28 v := by
  simp only [toSigned]
  norm_num
  split_ifs <;> omega

theorem toSigned28_toSigned32 (v : Int) : toSigned 28 (toSigned 32 v) = toSigned 28 v := by
  simp only [toSigned]
  norm_num
  split_ifs <;> omega

theorem maskBits28_eq (x : Int) : (maskBits 28 x : Int) = x % 2 ^ 28 := by
  simp only [maskBits, toULong]
  rw [Nat.and_pow_two_sub_one_eq_mod]
  push_cast
  rw [Int.toNat_of_nonneg (Int.emod_nonneg _ (by norm_num))]
  omega

theorem maskBits_lt (bits : Nat) (x : Int) : maskBits bits x < 2 ^ bits := by
  simp only [maskBits]
  rw [Nat.and_pow_two_sub_one_eq_mod]
  exact Nat.mod_lt _ (by positivity)

theorem shiftCast_zero (k : Nat) (hk : 32 ≤ k) (v : Int) :
    toSigned 32 (toSigned 64 (v * 2 ^ k)) = 0 := by
  obtain ⟨j, rfl⟩ : ∃ j, k = 32 + j := ⟨k - 32, by omega⟩
  have h : v * 2 ^ (32 + j) = (v * 2 ^ j) * 4294967296 := by
    rw [pow_add]; ring
  rw [h]
  generalize v * 2 ^ j = t
  simp only [toSigned]
  norm_num
  split_ifs <;> omega

theorem QuadInterp.captured_eq (i_data : Nat) (o : QOut) (junk : Int) :
    QuadInterp.captured i_data o junk = [0, 0, 0, 0, 0, junk >>> (64 - QuadInterp.OBITS)] := by
  have h0 : ∀ v : Int, toSigned 32 (toSigned 64 (v * 2 ^ (64 - QuadInterp.INW))) = 0 :=
    shiftCast_zero _ (by decide)
  have h1 : ∀ v : Int, toSigned 32 (toSigned 64 (v * 2 ^ (64 - QuadInterp.OBITS))) = 0 :=
    shiftCast_zero _ (by decide)
  simp only [QuadInterp.captured, List.getD_cons_zero, List.getD_cons_succ, List.set_cons_zero,
    List.set_cons_succ, h0, h1, Int.zero_shiftRight]

/-! ## The loop -/

theorem whileLoop_iterate {S : Type} (cond : S → Bool) (body : S → S) (k : Nat) :
    ∀ s : S, (∀ j, j < k → cond (body^[j] s) = true) → cond (body^[k] s) = false →
      whileLoop cond body (k + 1) s = some (body^[k] s) := by
  induction k with
  | zero =>
    intro s _ hstop
    simp only [Function.iterate_zero, id_eq] at hstop
    simp [whileLoop, hstop]
  | succ k ih =>
    intro s hrun hstop
    have h0 : cond s = true := hrun 0 (Nat.succ_pos k)
    rw [whileLoop, if_pos h0, Function.iterate_succ_apply]
    apply ih (body s)
    · intro j hj
      have := hrun (j + 1) (Nat.succ_lt_succ hj)
      rwa [Function.iterate_succ_apply] at this
    · rwa [Function.iterate_succ_apply] at hstop

theorem incU32_mod (n : Nat) : incU32 (n % 2 ^ 32) = (n + 1) % 2 ^ 32 := by
  simp only [incU32]
  omega

theorem succ_mod_eq (d n : Nat) (h : 0 < d) :
    (n + 1) % d = if n % d + 1 ≥ d then 0 else n % d + 1 := by
  have h1 := Nat.div_add_mod n d
  have hlt := Nat.mod_lt n h
  split_ifs with hc
  · have h2 : n + 1 = d * (n / d + 1) := by
      rw [Nat.mul_add, Nat.mul_one]; omega
    rw [h2, Nat.mul_mod_right]
  · have h2 : n + 1 = (n % d + 1) + d * (n / d) := by omega
    rw [h2, Nat.add_mul_mod_self_left, Nat.mod_eq_of_lt (by omega)]

theorem MAXTICKS_lt (iclocks : Nat) : MAXTICKS iclocks < 2 ^ 32 := by
  simp only [MAXTICKS]
  omega

theorem countP_dvd_range (d n : Nat) :
    (List.range n).countP (fun k => decide (d ∣ k + 1)) = n / d := by
  induction n with
  | zero => simp
  | succ n ih =>
    rw [List.range_succ, List.countP_append, ih, Nat.succ_div]
    by_cases h : d ∣ n + 1 <;> simp [h]

namespace ICompare

section
variable {σ : Type} (M : Core σ IcOut) (stim : Nat → Int) (i_step iclocks : Nat) (tb : σ)

theorem record_clocks (o : IcOut) (s : State σ) : (record o s).clocks = s.clocks := by
  simp only [record]; split_ifs <;> rfl

theorem record_inow (o : IcOut) (s : State σ) : (record o s).inow = s.inow := by
  simp only [record]; split_ifs <;> rfl

theorem record_i_ce (o : IcOut) (s : State σ) : (record o s).i_ce = s.i_ce := by
  simp only [record]; split_ifs <;> rfl

theorem record_i_data (o : IcOut) (s : State σ) : (record o s).i_data = s.i_data := by
  simp only [record]; split_ifs <;> rfl

theorem record_tb (o : IcOut) (s : State σ) : (record o s).tb = s.tb := by
  simp only [record]; split_ifs <;> rfl

theorem record_src_fp (o : IcOut) (s : State σ) : (record o s).src_fp = s.src_fp := by
  simp only [record]; split_ifs <;> rfl

theorem stateAt_eq_iterate (n : Nat) :
    stateAt M stim i_step iclocks tb n = (body M stim i_step iclocks)^[n] (init tb) := by
  induction n with
  | zero => rfl
  | succ n ih => rw [Function.iterate_succ_apply', ← ih]; rfl

theorem body_clocks (s : State σ) :
    (body M stim i_step iclocks s).clocks = incU32 s.clocks := by
  simp only [body, tick, advance, record_clocks]
  split_ifs <;> rfl

theorem body_inow (s : State σ) :
    (body M stim i_step iclocks s).inow =
      if incU32 s.inow ≥ iclocks then 0 else incU32 s.inow := by
  simp only [body, tick, advance, record_inow]
  split_ifs <;> rfl

theorem body_i_ce (s : State σ) :
    (body M stim i_step iclocks s).i_ce = if incU32 s.inow ≥ iclocks then 1 else 0 := by
  simp only [body, tick, advance, record_i_ce]
  split_ifs <;> rfl

theorem body_i_data (s : State σ) :
    (body M stim i_step iclocks s).i_data =
      if incU32 s.inow ≥ iclocks then maskBits IBITS (stim (incU32 s.clocks)) else s.i_data := by
  simp only [body, tick, advance, record_i_data]
  split_ifs <;> rfl

theorem body_src_fp (s : State σ) :
    (body M stim i_step iclocks s).src_fp =
      if incU32 s.inow ≥ iclocks then
        s.src_fp ++ [{ bytes := 4, objs := [stim (incU32 s.clocks)] }]
      else s.src_fp := by
  simp only [body, tick, advance, record_src_fp]
  split_ifs <;> rfl

theorem stateAt_clocks (n : Nat) :
    (stateAt M stim i_step iclocks tb n).clocks = (n + 1) % 2 ^ 32 := by
  induction n with
  | zero => rfl
  | succ n ih => rw [stateAt, body_clocks, ih, incU32_mod]

theorem stateAt_inow (h0 : 0 < iclocks) (h1 : iclocks < 2 ^ 32) (n : Nat) :
    (stateAt M stim i_step iclocks tb n).inow = n % iclocks := by
  induction n with
  | zero => simp [stateAt, init]
  | succ n ih =>
    rw [stateAt, body_inow, ih, succ_mod_eq iclocks n h0]
    have hlt : n % iclocks < iclocks := Nat.mod_lt _ h0
    have hinc : incU32 (n % iclocks) = n % iclocks + 1 := by
      simp only [incU32]; omega
    rw [hinc]

theorem inject_iff (h0 : 0 < iclocks) (h1 : iclocks < 2 ^ 32) (n : Nat) :
    incU32 (stateAt M stim i_step iclocks tb n).inow ≥ iclocks ↔ iclocks ∣ n + 1 := by
  rw [stateAt_inow M stim i_step iclocks tb h0 h1]
  have hlt : n % iclocks < iclocks := Nat.mod_lt _ h0
  have hinc : incU32 (n % iclocks) = n % iclocks + 1 := by
    simp only [incU32]; omega
  rw [hinc, Nat.dvd_iff_mod_eq_zero, succ_mod_eq iclocks n h0]
  split_ifs with h
  · simp [h]
  · simp only [h, false_iff]

theorem stateAt_i_ce (h0 : 0 < iclocks) (h1 : iclocks < 2 ^ 32) (n : Nat) :
    (stateAt M stim i_step iclocks tb (n + 1)).i_ce = if iclocks ∣ n + 1 then 1 else 0 := by
  rw [stateAt, body_i_ce]
  simp only [inject_iff M stim i_step iclocks tb h0 h1 n]

theorem stateAt_i_data (h0 : 0 < iclocks) (h1 : iclocks < 2 ^ 32) (n : Nat) :
    (stateAt M stim i_step iclocks tb (n + 1)).i_data =
      if iclocks ∣ n + 1 then maskBits IBITS (stim ((n + 2) % 2 ^ 32))
      else (stateAt M stim i_step iclocks tb n).i_data := by
  rw [stateAt, body_i_data, stateAt_clocks, incU32_mod]
  simp only [inject_iff M stim i_step iclocks tb h0 h1 n]

theorem stateAt_src_fp (h0 : 0 < iclocks) (h1 : iclocks < 2 ^ 32) (n : Nat) :
    (stateAt M stim i_step iclocks tb (n + 1)).src_fp =
      if iclocks ∣ n + 1 then
        (stateAt M stim i_step iclocks tb n).src_fp ++
          [{ bytes := 4, objs := [stim ((n + 2) % 2 ^ 32)] }]
      else (stateAt M stim i_step iclocks tb n).src_fp := by
  rw [stateAt, body_src_fp, stateAt_clocks, incU32_mod]
  simp only [inject_iff M stim i_step iclocks tb h0 h1 n]

theorem sampleCount_eq (h0 : 0 < iclocks) (h1 : iclocks < 2 ^ 32) (n : Nat) :
    sampleCount M stim i_step iclocks tb n = n / iclocks := by
  rw [← countP_dvd_range iclocks n, sampleCount]
  congr 1
  funext k
  rw [stateAt_i_ce M stim i_step iclocks tb h0 h1 k]
  by_cases h : iclocks ∣ k + 1 <;> simp [h]

theorem simulate_eq :
    simulate M stim i_step iclocks (MAXTICKS iclocks - 1 + 1) tb =
      some (stateAt M stim i_step iclocks tb (MAXTICKS iclocks - 1)) := by
  rw [simulate, stateAt_eq_iterate]
  have hM := MAXTICKS_lt iclocks
  apply whileLoop_iterate
  · intro j hj
    rw [← stateAt_eq_iterate, stateAt_clocks, decide_eq_true_eq]
    rw [Nat.mod_eq_of_lt (by omega)]
    omega
  · rw [← stateAt_eq_iterate, stateAt_clocks, decide_eq_false_iff_not]
    by_cases h : MAXTICKS iclocks = 0
    · omega
    · rw [Nat.mod_eq_of_lt (by omega)]
      omega

/-- The record written when `o_ln_ce` is set and the slots hold `[a, b, c, d, e]`. -/
theorem record_dbg_fp (o : IcOut) (s : State σ) (a b c d e : Int)
    (h : s.vals = [a, b, c, d, e]) :
    (record o s).dbg_fp =
      if o.o_ln_ce ≠ 0 then
        s.dbg_fp ++ [{ bytes := 20, objs := [toSigned 28 o.o_nn_data, toSigned 28 b,
          toSigned 28 c, toSigned 28 d, toSigned 28 e] }]
      else s.dbg_fp := by
  simp only [record, IBITS, fwrite, sizeofInt]
  split_ifs <;>
    first
      | rfl
      | simp [h, signExtend32_eq, toSigned28_toSigned32]

theorem record_vals (o : IcOut) (s : State σ) (a b c d e : Int)
    (h : s.vals = [a, b, c, d, e]) :
    (record o s).vals =
      [if o.o_ln_ce ≠ 0 then toSigned 28 o.o_nn_data else a,
       if o.o_ln_ce ≠ 0 then toSigned 32 o.o_ln_data else b,
       if o.o_qf_ce ≠ 0 then toSigned 32 o.o_qf_data
         else if o.o_ln_ce ≠ 0 then toSigned 28 c else c,
       if o.o_qm_ce ≠ 0 then toSigned 32 o.o_qm_data
         else if o.o_ln_ce ≠ 0 then toSigned 28 d else d,
       if o.o_qi_ce ≠ 0 then toSigned 32 o.o_qi_data
         else if o.o_ln_ce ≠ 0 then toSigned 28 e else e] := by
  simp only [record, IBITS]
  split_ifs <;>
    simp [h, signExtend32_eq, toSigned28_toSigned32]

theorem tick_vals (s : State σ) : (tick M stim i_step iclocks s).vals = s.vals := by
  simp only [tick, advance]
  split_ifs <;> rfl

theorem tick_dbg_fp (s : State σ) : (tick M stim i_step iclocks s).dbg_fp = s.dbg_fp := by
  simp only [tick, advance]
  split_ifs <;> rfl

theorem outAt_succ (n : Nat) :
    outAt M stim i_step iclocks tb (n + 1) =
      M.out (tick M stim i_step iclocks (stateAt M stim i_step iclocks tb n)).tb := by
  rw [outAt, stateAt, body, record_tb]

theorem stateAt_succ_eq (n : Nat) :
    stateAt M stim i_step iclocks tb (n + 1) =
      record (outAt M stim i_step iclocks tb (n + 1))
        (tick M stim i_step iclocks (stateAt M stim i_step iclocks tb n)) := by
  rw [outAt_succ]; rfl

theorem slots_inv (n : Nat) :
    ∃ a b c d e, (stateAt M stim i_step iclocks tb n).vals = [a, b, c, d, e] ∧
      toSigned 28 b = lastCaptured (fun k => (outAt M stim i_step iclocks tb k).o_ln_ce)
        (fun k => (outAt M stim i_step iclocks tb k).o_ln_data) n ∧
      toSigned 28 c = lastCaptured (fun k => (outAt M stim i_step iclocks tb k).o_qf_ce)
        (fun k => (outAt M stim i_step iclocks tb k).o_qf_data) n ∧
      toSigned 28 d = lastCaptured (fun k => (outAt M stim i_step iclocks tb k).o_qm_ce)
        (fun k => (outAt M stim i_step iclocks tb k).o_qm_data) n ∧
      toSigned 28 e = lastCaptured (fun k => (outAt M stim i_step iclocks tb k).o_qi_ce)
        (fun k => (outAt M stim i_step iclocks tb k).o_qi_data) n := by
  induction n with
  | zero => exact ⟨0, 0, 0, 0, 0, rfl, by simp [lastCaptured, toSigned], by simp [lastCaptured, toSigned],
      by simp [lastCaptured, toSigned], by simp [lastCaptured, toSigned]⟩
  | succ n ih =>
    obtain ⟨a, b, c, d, e, h, hb, hc, hd, he⟩ := ih
    have hv := record_vals (M.out (tick M stim i_step iclocks
      (stateAt M stim i_step iclocks tb n)).tb)
      (tick M stim i_step iclocks (stateAt M stim i_step iclocks tb n)) a b c d e
      ((tick_vals M stim i_step iclocks _).trans h)
    rw [← outAt_succ M stim i_step iclocks tb n, ← stateAt_succ_eq] at hv
    refine ⟨_, _, _, _, _, hv, ?_, ?_, ?_, ?_⟩
    · simp only [lastCaptured, IBITS, ← hb]
      split_ifs <;> simp [toSigned28_toSigned32]
    · simp only [lastCaptured, IBITS, ← hc]
      split_ifs <;> simp [toSigned28_toSigned32, toSigned28_idem]
    · simp only [lastCaptured, IBITS, ← hd]
      split_ifs <;> simp [toSigned28_toSigned32, toSigned28_idem]
    · simp only [lastCaptured, IBITS, ← he]
      split_ifs <;> simp [toSigned28_toSigned32, toSigned28_idem]

theorem stateAt_dbg_fp (n : Nat) :
    (stateAt M stim i_step iclocks tb (n + 1)).dbg_fp =
      if (outAt M stim i_step iclocks tb (n + 1)).o_ln_ce ≠ 0 then
        (stateAt M stim i_step iclocks tb n).dbg_fp ++ [recordAt M stim i_step iclocks tb n]
      else (stateAt M stim i_step iclocks tb n).dbg_fp := by
  obtain ⟨a, b, c, d, e, h, hb, hc, hd, he⟩ := slots_inv M stim i_step iclocks tb n
  have hv := record_dbg_fp (M.out (tick M stim i_step iclocks
      (stateAt M stim i_step iclocks tb n)).tb)
      (tick M stim i_step iclocks (stateAt M stim i_step iclocks tb n)) a b c d e
      ((tick_vals M stim i_step iclocks _).trans h)
  rw [← outAt_succ M stim i_step iclocks tb n, ← stateAt_succ_eq, tick_dbg_fp,
    hb, hc, hd, he] at hv
  exact hv

theorem length_dbg_fp (n : Nat) :
    (stateAt M stim i_step iclocks tb n).dbg_fp.length =
      readyCount M stim i_step iclocks tb n := by
  induction n with
  | zero => rfl
  | succ n ih =>
    rw [stateAt_dbg_fp, readyCount, List.range_succ, List.countP_append, ← readyCount, ← ih]
    split_ifs with h <;> simp [h]

theorem lastCaptured_spec (ce data : Nat → Nat) (n : Nat) :
    LatestCaptured ce data n (lastCaptured ce data n) := by
  unfold LatestCaptured
  induction n with
  | zero => exact Or.inr ⟨fun j h1 h2 => by omega, rfl⟩
  | succ n ih =>
    by_cases h : ce (n + 1) ≠ 0
    · refine Or.inl ⟨n + 1, by omega, le_refl _, h, fun j h1 h2 => by omega, ?_⟩
      simp [lastCaptured, h, IBITS]
    · have h0 : ce (n + 1) = 0 := by simpa using h
      have hl : lastCaptured ce data (n + 1) = lastCaptured ce data n := by
        simp [lastCaptured, h0]
      rw [hl]
      rcases ih with ⟨m, h1, h2, h3, h4, h5⟩ | ⟨h1, h2⟩
      · refine Or.inl ⟨m, h1, by omega, h3, fun j hj1 hj2 => ?_, h5⟩
        by_cases hj : j = n + 1
        · rw [hj]; exact h0
        · exact h4 j hj1 (by omega)
      · refine Or.inr ⟨fun j hj1 hj2 => ?_, h2⟩
        by_cases hj : j = n + 1
        · rw [hj]; exact h0
        · exact h1 j hj1 (by omega)

end

end ICompare

namespace QuadInterp

section
variable {σ : Type} (M : Core σ QOut) (stim : Nat → Int) (junk : Nat → Int)
  (i_step iclocks : Nat) (tb : σ)

theorem quad_record_clocks (o : QOut) (j : Int) (s : State σ) : (record o j s).clocks = s.clocks := by
  simp only [record]; split_ifs <;> rfl

theorem quad_record_inow (o : QOut) (j : Int) (s : State σ) : (record o j s).inow = s.inow := by
  simp only [record]; split_ifs <;> rfl

theorem quad_record_i_ce (o : QOut) (j : Int) (s : State σ) : (record o j s).i_ce = s.i_ce := by
  simp only [record]; split_ifs <;> rfl

theorem quad_record_i_data (o : QOut) (j : Int) (s : State σ) : (record o j s).i_data = s.i_data := by
  simp only [record]; split_ifs <;> rfl

theorem quad_record_tb (o : QOut) (j : Int) (s : State σ) : (record o j s).tb = s.tb := by
  simp only [record]; split_ifs <;> rfl

theorem quad_record_dbg_fp (o : QOut) (j : Int) (s : State σ) :
    (record o j s).dbg_fp =
      if o.o_ce ≠ 0 then s.dbg_fp ++ [{ bytes := 16, objs := [0, 0] }] else s.dbg_fp := by
  simp only [record, captured_eq, fwrite, sizeofLong]
  split_ifs <;> rfl

theorem quad_tick_dbg_fp (s : State σ) : (tick M stim i_step iclocks s).dbg_fp = s.dbg_fp := by
  simp only [tick, advance]
  split_ifs <;> rfl

theorem quad_stateAt_eq_iterate (n : Nat) :
    stateAt M stim junk i_step iclocks tb n =
      (body M stim junk i_step iclocks)^[n] (init tb) := by
  induction n with
  | zero => rfl
  | succ n ih => rw [Function.iterate_succ_apply', ← ih]; rfl

theorem quad_body_clocks (s : State σ) :
    (body M stim junk i_step iclocks s).clocks = incU32 s.clocks := by
  simp only [body, tick, advance, quad_record_clocks]
  split_ifs <;> rfl

theorem quad_body_inow (s : State σ) :
    (body M stim junk i_step iclocks s).inow =
      if incU32 s.inow ≥ iclocks then 0 else incU32 s.inow := by
  simp only [body, tick, advance, quad_record_inow]
  split_ifs <;> rfl

theorem quad_body_i_ce (s : State σ) :
    (body M stim junk i_step iclocks s).i_ce = if incU32 s.inow ≥ iclocks then 1 else 0 := by
  simp only [body, tick, advance, quad_record_i_ce]
  split_ifs <;> rfl

theorem quad_body_i_data (s : State σ) :
    (body M stim junk i_step iclocks s).i_data =
      if incU32 s.inow ≥ iclocks then maskBits INW (stim (incU32 s.clocks)) else s.i_data := by
  simp only [body, tick, advance, quad_record_i_data]
  split_ifs <;> rfl

theorem quad_stateAt_clocks (n : Nat) :
    (stateAt M stim junk i_step iclocks tb n).clocks = (n + 1) % 2 ^ 32 := by
  induction n with
  | zero => rfl
  | succ n ih => rw [stateAt, quad_body_clocks, ih, incU32_mod]

theorem quad_stateAt_inow (h0 : 0 < iclocks) (h1 : iclocks < 2 ^ 32) (n : Nat) :
    (stateAt M stim junk i_step iclocks tb n).inow = n % iclocks := by
  induction n with
  | zero => simp [stateAt, init]
  | succ n ih =>
    rw [stateAt, quad_body_inow, ih, succ_mod_eq iclocks n h0]
    have hlt : n % iclocks < iclocks := Nat.mod_lt _ h0
    have hinc : incU32 (n % iclocks) = n % iclocks + 1 := by
      simp only [incU32]; omega
    rw [hinc]

theorem quad_inject_iff (h0 : 0 < iclocks) (h1 : iclocks < 2 ^ 32) (n : Nat) :
    incU32 (stateAt M stim junk i_step iclocks tb n).inow ≥ iclocks ↔ iclocks ∣ n + 1 := by
  rw [quad_stateAt_inow M stim junk i_step iclocks tb h0 h1]
  have hlt : n % iclocks < iclocks := Nat.mod_lt _ h0
  have hinc : incU32 (n % iclocks) = n % iclocks + 1 := by
    simp only [incU32]; omega
  rw [hinc, Nat.dvd_iff_mod_eq_zero, succ_mod_eq iclocks n h0]
  split_ifs with h
  · simp [h]
  · simp only [h, false_iff]

theorem quad_stateAt_i_ce (h0 : 0 < iclocks) (h1 : iclocks < 2 ^ 32) (n : Nat) :
    (stateAt M stim junk i_step iclocks tb (n + 1)).i_ce =
      if iclocks ∣ n + 1 then 1 else 0 := by
  rw [stateAt, quad_body_i_ce]
  simp only [quad_inject_iff M stim junk i_step iclocks tb h0 h1 n]

theorem quad_stateAt_i_data (h0 : 0 < iclocks) (h1 : iclocks < 2 ^ 32) (n : Nat) :
    (stateAt M stim junk i_step iclocks tb (n + 1)).i_data =
      if iclocks ∣ n + 1 then maskBits INW (stim ((n + 2) % 2 ^ 32))
      else (stateAt M stim junk i_step iclocks tb n).i_data := by
  rw [stateAt, quad_body_i_data, quad_stateAt_clocks, incU32_mod]
  simp only [quad_inject_iff M stim junk i_step iclocks tb h0 h1 n]

theorem quad_sampleCount_eq (h0 : 0 < iclocks) (h1 : iclocks < 2 ^ 32) (n : Nat) :
    sampleCount M stim junk i_step iclocks tb n = n / iclocks := by
  rw [← countP_dvd_range iclocks n, sampleCount]
  congr 1
  funext k
  rw [quad_stateAt_i_ce M stim junk i_step iclocks tb h0 h1 k]
  by_cases h : iclocks ∣ k + 1 <;> simp [h]

theorem quad_simulate_eq :
    simulate M stim junk i_step iclocks (MAXTICKS iclocks - 1 + 1) tb =
      some (stateAt M stim junk i_step iclocks tb (MAXTICKS iclocks - 1)) := by
  rw [simulate, quad_stateAt_eq_iterate]
  have hM := MAXTICKS_lt iclocks
  apply whileLoop_iterate
  · intro j hj
    rw [← quad_stateAt_eq_iterate, quad_stateAt_clocks, decide_eq_true_eq]
    rw [Nat.mod_eq_of_lt (by omega)]
    omega
  · rw [← quad_stateAt_eq_iterate, quad_stateAt_clocks, decide_eq_false_iff_not]
    by_cases h : MAXTICKS iclocks = 0
    · omega
    · rw [Nat.mod_eq_of_lt (by omega)]
      omega

theorem quad_outAt_succ (n : Nat) :
    outAt M stim junk i_step iclocks tb (n + 1) =
      M.out (tick M stim i_step iclocks (stateAt M stim junk i_step iclocks tb n)).tb := by
  rw [outAt, stateAt, body, quad_record_tb]

theorem quad_stateAt_dbg_fp (n : Nat) :
    (stateAt M stim junk i_step iclocks tb (n + 1)).dbg_fp =
      if (outAt M stim junk i_step iclocks tb (n + 1)).o_ce ≠ 0 then
        (stateAt M stim junk i_step iclocks tb n).dbg_fp ++ [{ bytes := 16, objs := [0, 0] }]
      else (stateAt M stim junk i_step iclocks tb n).dbg_fp := by
  rw [quad_outAt_succ]
  conv_lhs => rw [stateAt, body, quad_record_dbg_fp, quad_tick_dbg_fp]

theorem quad_length_dbg_fp (n : Nat) :
    (stateAt M stim junk i_step iclocks tb n).dbg_fp.length =
      readyCount M stim junk i_step iclocks tb n := by
  induction n with
  | zero => rfl
  | succ n ih =>
    rw [quad_stateAt_dbg_fp, readyCount, List.range_succ, List.countP_append, ← readyCount, ← ih]
    split_ifs with h <;> simp [h]

end

end QuadInterp

/-! ## Rounding to double -/

theorem log2_eq {q : ℚ} {e : ℤ} (h1 : (2 : ℚ) ^ e ≤ q) (h2 : q < 2 ^ (e + 1)) :
    Int.log 2 q = e := by
  have hq : 0 < q := lt_of_lt_of_le (zpow_pos (by norm_num) e) h1
  apply le_antisymm
  · have h := (Int.lt_zpow_iff_log_lt (b := 2) (by norm_num) hq).1
      (by rw [Nat.cast_ofNat]; exact h2)
    omega
  · exact (Int.zpow_le_iff_le_log (b := 2) (by norm_num) hq).1
      (by rw [Nat.cast_ofNat]; exact h1)

theorem roundHalfEven_eq {q : ℚ} {m : ℤ} (h : |q - m| < 1 / 2) : roundHalfEven q = m := by
  rw [abs_lt] at h
  obtain ⟨h1, h2⟩ := h
  simp only [roundHalfEven]
  by_cases hm : (m : ℚ) ≤ q
  · have hf : ⌊q⌋ = m := by
      rw [Int.floor_eq_iff]; constructor <;> linarith
    rw [hf, if_pos h2]
  · have hf : ⌊q⌋ = m - 1 := by
      rw [Int.floor_eq_iff]; push_cast; constructor <;> linarith
    rw [hf]
    push_cast
    rw [if_neg (by linarith), if_pos (by linarith)]
    ring

theorem toDouble_eq {q : ℚ} {e m : ℤ} (h1 : (2 : ℚ) ^ e ≤ q) (h2 : q < 2 ^ (e + 1))
    (hm : |q / 2 ^ (e - 52) - m| < 1 / 2) : toDouble q = m * 2 ^ (e - 52) := by
  have hq : 0 < q := lt_of_lt_of_le (zpow_pos (by norm_num) e) h1
  simp only [toDouble]
  rw [if_neg (ne_of_gt hq), abs_of_pos hq, log2_eq h1 h2, roundHalfEven_eq hm]

theorem toDouble_exact (m k : ℤ) (hm1 : 2 ^ 52 ≤ m) (hm2 : m < 2 ^ 53) :
    toDouble (m * 2 ^ k) = m * 2 ^ k := by
  have h2 : (0 : ℚ) < 2 := by norm_num
  have hk : (0 : ℚ) < 2 ^ k := zpow_pos h2 k
  have e1 : (2 : ℚ) ^ (52 + k) = 2 ^ (52 : ℕ) * 2 ^ k := by
    rw [zpow_add₀ (ne_of_gt h2)]; norm_cast
  have e2 : (2 : ℚ) ^ (52 + k + 1) = 2 ^ (53 : ℕ) * 2 ^ k := by
    rw [show 52 + k + 1 = 53 + k by ring, zpow_add₀ (ne_of_gt h2)]; norm_cast
  have e3 : 52 + k - 52 = k := by ring
  have h := @toDouble_eq (m * 2 ^ k) (52 + k) m
    (by rw [e1]; exact mul_le_mul_of_nonneg_right (by exact_mod_cast hm1) hk.le)
    (by rw [e2]; exact mul_lt_mul_of_pos_right (by exact_mod_cast hm2) hk)
    (by rw [e3, mul_div_assoc, div_self (ne_of_gt hk)]; norm_num)
  rw [h, e3]


theorem toDouble_natCast (n : ℕ) (k : ℕ) (h1 : 2 ^ 52 ≤ n * 2 ^ k) (h2 : n * 2 ^ k < 2 ^ 53) :
    toDouble (n : ℚ) = n := by
  have h := toDouble_exact ((n * 2 ^ k : ℕ) : ℤ) (-(k : ℤ)) (by exact_mod_cast h1)
    (by exact_mod_cast h2)
  have e : (((n * 2 ^ k : ℕ) : ℤ) : ℚ) * 2 ^ (-(k : ℤ)) = n := by
    push_cast
    rw [zpow_neg, zpow_natCast, mul_assoc, mul_inv_cancel₀ (by positivity), mul_one]
  rwa [e] at h

theorem toUnsigned_eq {d : ℚ} {n : ℕ} (h1 : (n : ℚ) ≤ d) (h2 : d < n + 1) (hn : n < 2 ^ 32) :
    toUnsigned d = some n := by
  have hd : 0 ≤ d := le_trans (Nat.cast_nonneg n) h1
  have hf : ⌊d⌋ = (n : ℤ) := by
    rw [Int.floor_eq_iff]; push_cast; exact ⟨h1, h2⟩
  simp only [toUnsigned, if_pos hd, hf]
  rw [if_pos ⟨Int.natCast_nonneg n, by exact_mod_cast hn⟩, Int.toNat_natCast]

theorem step_of_quotient {a b : ℤ} {m : ℤ} {k : ℤ} {n : ℕ}
    (ha : toDouble (a : ℚ) = a) (hb : toDouble (b : ℚ) = b)
    (hq : toDouble ((a : ℚ) / b) = m * 2 ^ k) (hm1 : 2 ^ 52 ≤ m) (hm2 : m < 2 ^ 53)
    (h1 : (n : ℚ) ≤ m * 2 ^ (k + 32)) (h2 : (m : ℚ) * 2 ^ (k + 32) < n + 1) (hn : n < 2 ^ 32) :
    stepOfRates a b = some n := by
  have h30 : toDouble ((2 ^ 30 : ℕ) : ℚ) = ((2 ^ 30 : ℕ) : ℚ) :=
    toDouble_natCast (2 ^ 30) 22 (by norm_num) (by norm_num)
  have e4 : (m : ℚ) * 2 ^ k * 4 = m * 2 ^ (k + 2) := by
    rw [zpow_add₀ (by norm_num : (2 : ℚ) ≠ 0)]; norm_num; ring
  have e5 : (m : ℚ) * 2 ^ (k + 2) * ((2 ^ 30 : ℕ) : ℚ) = m * 2 ^ (k + 32) := by
    rw [show k + 32 = k + 2 + 30 by ring, zpow_add₀ (by norm_num : (2 : ℚ) ≠ 0) (k + 2)]
    norm_num; ring
  simp only [stepOfRates]
  rw [ha, hb, hq, e4, toDouble_exact m _ hm1 hm2, h30, e5, toDouble_exact m _ hm1 hm2]
  exact toUnsigned_eq h1 h2 hn

theorem toDouble_zero : toDouble 0 = 0 := by
  simp [toDouble]

theorem toDouble_nat (n : ℕ) (h : n < 2 ^ 53) : toDouble (n : ℚ) = n := by
  by_cases h0 : n = 0
  · subst h0; simp [toDouble]
  · have hl := Nat.pow_log_le_self 2 h0
    have hu := Nat.lt_pow_succ_log_self (by norm_num : 1 < 2) n
    have he : Nat.log 2 n < 53 := by
      by_contra hc
      have : 2 ^ 53 ≤ 2 ^ Nat.log 2 n := Nat.pow_le_pow_right (by norm_num) (by omega)
      omega
    apply toDouble_natCast n (52 - Nat.log 2 n)
    · calc 2 ^ 52 = 2 ^ Nat.log 2 n * 2 ^ (52 - Nat.log 2 n) := by
            rw [← pow_add]; congr 1; omega
        _ ≤ n * 2 ^ (52 - Nat.log 2 n) := Nat.mul_le_mul_right _ hl
    · calc n * 2 ^ (52 - Nat.log 2 n) < 2 ^ (Nat.log 2 n + 1) * 2 ^ (52 - Nat.log 2 n) :=
            Nat.mul_lt_mul_of_pos_right hu (by positivity)
        _ = 2 ^ 53 := by rw [← pow_add]; congr 1; omega


theorem roundHalfEven_le (q : ℚ) : (roundHalfEven q : ℚ) ≤ q + 1 / 2 := by
  have h1 := Int.floor_le q
  have h2 := Int.lt_floor_add_one q
  simp only [roundHalfEven]
  split_ifs <;> push_cast <;> linarith

theorem le_roundHalfEven (q : ℚ) : q - 1 / 2 ≤ (roundHalfEven q : ℚ) := by
  have h1 := Int.floor_le q
  have h2 := Int.lt_floor_add_one q
  simp only [roundHalfEven]
  split_ifs <;> push_cast <;> linarith

theorem toDouble_bounds {q : ℚ} (hq : 0 < q) :
    q * (1 - 1 / 2 ^ 53) ≤ toDouble q ∧ toDouble q ≤ q * (1 + 1 / 2 ^ 53) := by
  have h2 : (0 : ℚ) < 2 := by norm_num
  have hlog : (2 : ℚ) ^ Int.log 2 q ≤ q := by
    have := Int.zpow_log_le_self (b := 2) (by norm_num) hq
    rwa [Nat.cast_ofNat] at this
  have hu : (0 : ℚ) < 2 ^ (Int.log 2 q - 52) := zpow_pos h2 _
  have hsplit : (2 : ℚ) ^ Int.log 2 q = 2 ^ (Int.log 2 q - 52) * 2 ^ (52 : ℕ) := by
    rw [← zpow_natCast, ← zpow_add₀ (ne_of_gt h2)]; congr 1; push_cast; ring
  have hx : q = q / 2 ^ (Int.log 2 q - 52) * 2 ^ (Int.log 2 q - 52) := by
    field_simp
  have hr1 := roundHalfEven_le (q / 2 ^ (Int.log 2 q - 52))
  have hr2 := le_roundHalfEven (q / 2 ^ (Int.log 2 q - 52))
  simp only [toDouble]
  rw [if_neg (ne_of_gt hq), abs_of_pos hq]
  generalize (roundHalfEven (q / 2 ^ (Int.log 2 q - 52)) : ℚ) = r at hr1 hr2
  generalize q / 2 ^ (Int.log 2 q - 52) = x at hx hr1 hr2
  generalize (2 : ℚ) ^ (Int.log 2 q - 52) = u at hu hsplit hx
  rw [hsplit] at hlog
  have hp : (2 : ℚ) ^ (52 : ℕ) = 4503599627370496 := by norm_num
  have hp' : (1 : ℚ) / 2 ^ 53 = 1 / 9007199254740992 := by norm_num
  rw [hp] at hlog
  rw [hp']
  constructor
  · have : (x - 1 / 2) * u ≤ r * u := mul_le_mul_of_nonneg_right hr2 hu.le
    nlinarith
  · have : r * u ≤ (x + 1 / 2) * u := mul_le_mul_of_nonneg_right hr1 hu.le
    nlinarith


theorem toDouble_int (a : ℤ) (h0 : 0 ≤ a) (h : a < 2 ^ 53) : toDouble (a : ℚ) = a := by
  obtain ⟨n, rfl⟩ := Int.eq_ofNat_of_zero_le h0
  have := toDouble_nat n (by exact_mod_cast h)
  exact_mod_cast this

theorem toUnsigned_some {d : ℚ} (h0 : 0 ≤ d) (h1 : d < 2 ^ 32) :
    ∃ v, toUnsigned d = some v ∧ v < 2 ^ 32 ∧ (v : ℤ) = ⌊d⌋ := by
  have hf0 : 0 ≤ ⌊d⌋ := Int.floor_nonneg.2 h0
  have hf1 : ⌊d⌋ < 2 ^ 32 := by
    have : ((⌊d⌋ : ℤ) : ℚ) < ((2 ^ 32 : ℤ) : ℚ) := by
      push_cast; exact lt_of_le_of_lt (Int.floor_le d) h1
    exact_mod_cast this
  refine ⟨⌊d⌋.toNat, ?_, ?_, Int.toNat_of_nonneg hf0⟩
  · simp only [toUnsigned, if_pos h0]
    rw [if_pos ⟨hf0, hf1⟩]
  · omega

theorem floor_step_range (a b : ℤ) (h0 : 0 ≤ a) (h1 : a < b) :
    0 ≤ ⌊(a : ℚ) * 2 ^ 32 / b⌋ ∧ ⌊(a : ℚ) * 2 ^ 32 / b⌋ ≤ 2 ^ 32 - 1 := by
  have hb : (0 : ℚ) < b := by exact_mod_cast (by omega : 0 < b)
  have ha : (0 : ℚ) ≤ a := by exact_mod_cast h0
  have hab : (a : ℚ) < b := by exact_mod_cast h1
  constructor
  · exact Int.floor_nonneg.2 (by positivity)
  · have hlt : (a : ℚ) * 2 ^ 32 / b < ((2 ^ 32 : ℤ) : ℚ) := by
      rw [div_lt_iff₀ hb]; push_cast; nlinarith
    have := Int.floor_lt.2 hlt
    omega

theorem le_roundHalfEven_of_int_le {z : ℚ} {N : ℤ} (h : (N : ℚ) ≤ z) : N ≤ roundHalfEven z := by
  have hf : N ≤ ⌊z⌋ := Int.le_floor.2 h
  simp only [roundHalfEven]
  split_ifs <;> omega

theorem le_toDouble_of_le (m : ℕ) (j : ℤ) (hm : m < 2 ^ 53) {y : ℚ} (hy : 0 < y)
    (h : (m : ℚ) * 2 ^ j ≤ y) : (m : ℚ) * 2 ^ j ≤ toDouble y := by
  have h2 : (0 : ℚ) < 2 := by norm_num
  have h2' : (2 : ℚ) ≠ 0 := ne_of_gt h2
  have hlog : (2 : ℚ) ^ Int.log 2 y ≤ y := by
    have := Int.zpow_log_le_self (b := 2) (by norm_num) hy
    rwa [Nat.cast_ofNat] at this
  have hu : (0 : ℚ) < 2 ^ (Int.log 2 y - 52) := zpow_pos h2 _
  have hval : toDouble y =
      roundHalfEven (y / 2 ^ (Int.log 2 y - 52)) * 2 ^ (Int.log 2 y - 52) := by
    simp only [toDouble]
    rw [if_neg (ne_of_gt hy), abs_of_pos hy]
  rw [hval]
  by_cases hj : Int.log 2 y - 52 ≤ j
  · obtain ⟨t, ht⟩ := Int.eq_ofNat_of_zero_le (sub_nonneg.2 hj)
    have hsplit : (2 : ℚ) ^ j = 2 ^ t * 2 ^ (Int.log 2 y - 52) := by
      rw [← zpow_natCast, ← zpow_add₀ h2', ← ht]; congr 1; ring
    have hN : (((m * 2 ^ t : ℕ) : ℤ) : ℚ) ≤ y / 2 ^ (Int.log 2 y - 52) := by
      rw [le_div_iff₀ hu]
      push_cast
      rw [mul_assoc, ← hsplit]
      exact h
    have hr := le_roundHalfEven_of_int_le hN
    have hr' : (((m * 2 ^ t : ℕ) : ℤ) : ℚ) ≤ (roundHalfEven (y / 2 ^ (Int.log 2 y - 52)) : ℚ) := by
      exact_mod_cast hr
    calc (m : ℚ) * 2 ^ j = (((m * 2 ^ t : ℕ) : ℤ) : ℚ) * 2 ^ (Int.log 2 y - 52) := by
          rw [hsplit]; push_cast; ring
      _ ≤ _ := mul_le_mul_of_nonneg_right hr' hu.le
  · have hj' : j + 53 ≤ Int.log 2 y := by omega
    have hc : (((2 ^ 52 : ℕ) : ℤ) : ℚ) = 2 ^ (52 : ℕ) := by norm_num
    have hsplit : (2 : ℚ) ^ Int.log 2 y = 2 ^ (52 : ℕ) * 2 ^ (Int.log 2 y - 52) := by
      rw [← zpow_natCast, ← zpow_add₀ h2']; congr 1; push_cast; ring
    have hN : (((2 ^ 52 : ℕ) : ℤ) : ℚ) ≤ y / 2 ^ (Int.log 2 y - 52) := by
      rw [le_div_iff₀ hu, hc, ← hsplit]
      exact hlog
    have hr := le_roundHalfEven_of_int_le hN
    have hr' : (((2 ^ 52 : ℕ) : ℤ) : ℚ) ≤ (roundHalfEven (y / 2 ^ (Int.log 2 y - 52)) : ℚ) := by
      exact_mod_cast hr
    have hpow : (2 : ℚ) ^ (j + 53) ≤ 2 ^ Int.log 2 y :=
      zpow_le_zpow_right₀ (by norm_num) hj'
    have hm' : (m : ℚ) ≤ 2 ^ (53 : ℕ) := by exact_mod_cast hm.le
    calc (m : ℚ) * 2 ^ j ≤ 2 ^ (53 : ℕ) * 2 ^ j :=
          mul_le_mul_of_nonneg_right hm' (zpow_pos h2 j).le
      _ = 2 ^ (j + 53) := by rw [zpow_add₀ h2']; norm_cast; ring
      _ ≤ 2 ^ Int.log 2 y := hpow
      _ = (((2 ^ 52 : ℕ) : ℤ) : ℚ) * 2 ^ (Int.log 2 y - 52) := by
          rw [hc, ← hsplit]
      _ ≤ _ := mul_le_mul_of_nonneg_right hr' hu.le


theorem stepOfRates_near_floor (a b : ℤ) (h0 : 0 ≤ a) (h1 : a < b) (h2 : b < CLOCKRATE_HZ) :
    ∃ v : ℕ, stepOfRates a b = some v ∧ v < 2 ^ 32 ∧
      ⌊(a : ℚ) * 2 ^ 32 / b⌋ ≤ v ∧ (v : ℤ) ≤ ⌊(a : ℚ) * 2 ^ 32 / b⌋ + 1 := by
  have hb8 : b < 100000000 := by simpa [CLOCKRATE_HZ] using h2
  have ha : toDouble (a : ℚ) = a := toDouble_int a h0 (by omega)
  have hb : toDouble (b : ℚ) = b := toDouble_int b (by omega) (by omega)
  have h30 : toDouble ((2 ^ 30 : ℕ) : ℚ) = ((2 ^ 30 : ℕ) : ℚ) :=
    toDouble_nat (2 ^ 30) (by norm_num)
  simp only [stepOfRates]
  rw [ha, hb, h30]
  by_cases haz : a = 0
  · subst haz
    have : toUnsigned 0 = some 0 := by simp [toUnsigned]
    refine ⟨0, by simp [toDouble_zero, this], by norm_num, ?_, ?_⟩ <;> simp
  · have hapos : (0 : ℚ) < a := by exact_mod_cast lt_of_le_of_ne h0 (Ne.symm haz)
    have hbpos : (0 : ℚ) < b := by exact_mod_cast (by omega : 0 < b)
    have hQpos : (0 : ℚ) < (a : ℚ) / b := div_pos hapos hbpos
    have hx : (a : ℚ) * 2 ^ 32 / b = (a : ℚ) / b * 2 ^ 32 := by ring
    obtain ⟨hk0, hk1⟩ := floor_step_range a b h0 h1
    rw [hx] at hk0 hk1 ⊢
    have hQ1 : (a : ℚ) / b < 1 := by
      rw [div_lt_one hbpos]; exact_mod_cast h1
    have hQ : (a : ℚ) / b ≤ 1 - 1 / 100000000 := by
      rw [div_le_iff₀ hbpos]
      have e1 : (a : ℚ) ≤ b - 1 := by exact_mod_cast (by omega : a ≤ b - 1)
      have e2 : (b : ℚ) ≤ 100000000 := by exact_mod_cast (by omega : b ≤ 100000000)
      linarith
    obtain ⟨K, hK⟩ := Int.eq_ofNat_of_zero_le hk0
    have hK32 : K < 2 ^ 32 := by omega
    have hK53 : K < 2 ^ 53 := by omega
    have hKle : (K : ℚ) ≤ (a : ℚ) / b * 2 ^ 32 := by
      have := Int.floor_le ((a : ℚ) / b * 2 ^ 32)
      rw [hK] at this
      exact_mod_cast this
    have hKlt : (a : ℚ) / b * 2 ^ 32 < K + 1 := by
      have := Int.lt_floor_add_one ((a : ℚ) / b * 2 ^ 32)
      rw [hK] at this
      exact_mod_cast this
    rw [hK]
    have hp32 : (2 : ℚ) ^ (-32 : ℤ) = 1 / 2 ^ 32 := by
      rw [zpow_neg, one_div]; norm_cast
    have hp30 : (2 : ℚ) ^ (-30 : ℤ) = 1 / 2 ^ 30 := by
      rw [zpow_neg, one_div]; norm_cast
    have r1 := le_toDouble_of_le K (-32) hK53 hQpos (by
      rw [hp32]; linarith)
    obtain ⟨l1, u1⟩ := toDouble_bounds hQpos
    generalize toDouble ((a : ℚ) / b) = q1 at l1 u1 r1
    generalize (a : ℚ) / b = Q at hQpos hQ1 hQ hKle hKlt l1 u1
    have hq1 : 0 < q1 := lt_of_lt_of_le (by positivity) l1
    have r2 := le_toDouble_of_le K (-30) hK53 (by positivity : 0 < q1 * 4) (by
      rw [hp30]; rw [hp32] at r1; linarith)
    obtain ⟨l2, u2⟩ := toDouble_bounds (by positivity : 0 < q1 * 4)
    generalize toDouble (q1 * 4) = q2 at l2 u2 r2
    have hq2 : 0 < q2 := lt_of_lt_of_le (by positivity) l2
    have r3 := le_toDouble_of_le K 0 hK53
      (by positivity : 0 < q2 * ((2 ^ 30 : ℕ) : ℚ)) (by
      rw [hp30] at r2; rw [zpow_zero]; push_cast; linarith)
    obtain ⟨l3, u3⟩ := toDouble_bounds (by positivity : 0 < q2 * ((2 ^ 30 : ℕ) : ℚ))
    generalize toDouble (q2 * ((2 ^ 30 : ℕ) : ℚ)) = q3 at l3 u3 r3
    have hq3 : 0 < q3 := lt_of_lt_of_le (by positivity) l3
    rw [zpow_zero, mul_one] at r3
    have c1 : q2 ≤ Q * (1 + 1 / 2 ^ 53) * 4 * (1 + 1 / 2 ^ 53) :=
      le_trans u2 (by gcongr)
    have c2 : q3 ≤ Q * (1 + 1 / 2 ^ 53) * 4 * (1 + 1 / 2 ^ 53) * ((2 ^ 30 : ℕ) : ℚ) *
        (1 + 1 / 2 ^ 53) := le_trans u3 (by gcongr)
    have hup : q3 < K + 2 := by
      have e : Q * (1 + 1 / 2 ^ 53) * 4 * (1 + 1 / 2 ^ 53) * ((2 ^ 30 : ℕ) : ℚ) *
          (1 + 1 / 2 ^ 53) = Q * 2 ^ 32 + Q * (2 ^ 32 * ((1 + 1 / 2 ^ 53) ^ 3 - 1)) := by
        push_cast; ring
      have hs : (2 : ℚ) ^ 32 * ((1 + 1 / 2 ^ 53) ^ 3 - 1) ≤ 1 := by norm_num
      have hs0 : (0 : ℚ) ≤ 2 ^ 32 * ((1 + 1 / 2 ^ 53) ^ 3 - 1) := by norm_num
      have : Q * (2 ^ 32 * ((1 + 1 / 2 ^ 53) ^ 3 - 1)) ≤ 1 := by
        calc Q * (2 ^ 32 * ((1 + 1 / 2 ^ 53) ^ 3 - 1))
            ≤ 1 * (2 ^ 32 * ((1 + 1 / 2 ^ 53) ^ 3 - 1)) :=
              mul_le_mul_of_nonneg_right hQ1.le hs0
          _ ≤ 1 := by rw [one_mul]; exact hs
      rw [e] at c2
      linarith
    have hlt : q3 < 2 ^ 32 := by
      have c3 : Q * (1 + 1 / 2 ^ 53) * 4 * (1 + 1 / 2 ^ 53) * ((2 ^ 30 : ℕ) : ℚ) *
          (1 + 1 / 2 ^ 53) ≤ (1 - 1 / 100000000) * (1 + 1 / 2 ^ 53) * 4 * (1 + 1 / 2 ^ 53) *
          ((2 ^ 30 : ℕ) : ℚ) * (1 + 1 / 2 ^ 53) := by gcongr
      refine lt_of_le_of_lt (le_trans c2 c3) ?_
      norm_num
    obtain ⟨v, hv, hv32, hvf⟩ := toUnsigned_some hq3.le hlt
    refine ⟨v, hv, hv32, ?_, ?_⟩
    · rw [hvf]; exact Int.le_floor.2 (by exact_mod_cast r3)
    · rw [hvf]
      have : ⌊q3⌋ < (K : ℤ) + 2 := Int.floor_lt.2 (by exact_mod_cast hup)
      omega

/-! ## Files -/

theorem fileBytes_append (fp : FILE) (c : Chunk) :
    fileBytes (fp ++ [c]) = fileBytes fp + c.bytes := by
  simp [fileBytes]

theorem fileValues_append (fp : FILE) (c : Chunk) :
    fileValues (fp ++ [c]) = fileValues fp + c.objs.length := by
  simp [fileValues]

theorem lastCaptured_bounds (ce data : Nat → Nat) (n : Nat) :
    -2 ^ 27 ≤ ICompare.lastCaptured ce data n ∧ ICompare.lastCaptured ce data n < 2 ^ 27 := by
  induction n with
  | zero => simp [ICompare.lastCaptured]
  | succ n ih =>
    simp only [ICompare.lastCaptured, ICompare.IBITS]
    split_ifs
    · exact toSigned28_bounds _
    · exact ih

namespace ICompare

section
variable {σ : Type} (M : Core σ IcOut) (stim : Nat → Int) (i_step iclocks : Nat) (tb : σ)

theorem length_src_fp (h0 : 0 < iclocks) (h1 : iclocks < 2 ^ 32) (n : Nat) :
    (stateAt M stim i_step iclocks tb n).src_fp.length = n / iclocks := by
  induction n with
  | zero => simp [stateAt, init]
  | succ n ih =>
    rw [stateAt_src_fp M stim i_step iclocks tb h0 h1, Nat.succ_div]
    split_ifs <;> simp [ih]

theorem src_fp_bytes (h0 : 0 < iclocks) (h1 : iclocks < 2 ^ 32) (n : Nat) :
    fileBytes (stateAt M stim i_step iclocks tb n).src_fp = 4 * (n / iclocks) ∧
      fileValues (stateAt M stim i_step iclocks tb n).src_fp = n / iclocks := by
  induction n with
  | zero => simp [stateAt, init, fileBytes, fileValues]
  | succ n ih =>
    rw [stateAt_src_fp M stim i_step iclocks tb h0 h1, Nat.succ_div]
    split_ifs
    · obtain ⟨ih1, ih2⟩ := ih
      rw [fileBytes_append, fileValues_append, ih1, ih2]
      simp only [List.length_singleton]
      exact ⟨by ring, trivial⟩
    · simpa using ih

theorem dbg_fp_eq (n : Nat) :
    (stateAt M stim i_step iclocks tb n).dbg_fp =
      ((List.range n).filter
        (fun k => decide ((outAt M stim i_step iclocks tb (k + 1)).o_ln_ce ≠ 0))).map
        (recordAt M stim i_step iclocks tb) := by
  induction n with
  | zero => rfl
  | succ n ih =>
    rw [stateAt_dbg_fp, List.range_succ, List.filter_append, List.map_append, ← ih]
    split_ifs with h <;> simp [h]

theorem dbg_fp_bytes (n : Nat) :
    fileBytes (stateAt M stim i_step iclocks tb n).dbg_fp =
        20 * readyCount M stim i_step iclocks tb n ∧
      fileValues (stateAt M stim i_step iclocks tb n).dbg_fp =
        5 * readyCount M stim i_step iclocks tb n := by
  induction n with
  | zero => simp [stateAt, init, fileBytes, fileValues, readyCount]
  | succ n ih =>
    have hr : readyCount M stim i_step iclocks tb (n + 1) =
        readyCount M stim i_step iclocks tb n +
          if (outAt M stim i_step iclocks tb (n + 1)).o_ln_ce ≠ 0 then 1 else 0 := by
      rw [readyCount, List.range_succ, List.countP_append, ← readyCount]
      split_ifs with h <;> simp [h]
    rw [stateAt_dbg_fp, hr]
    split_ifs
    · rw [fileBytes_append, fileValues_append, ih.1, ih.2]
      simp only [recordAt, List.length_cons, List.length_nil]
      omega
    · simpa using ih

theorem dbg_fp_range (n : Nat) (c : Chunk) (x : Int)
    (hc : c ∈ (stateAt M stim i_step iclocks tb n).dbg_fp) (hx : x ∈ c.objs) :
    -2 ^ 27 ≤ x ∧ x < 2 ^ 27 := by
  rw [dbg_fp_eq] at hc
  obtain ⟨k, _, hk⟩ := List.mem_map.1 hc
  rw [← hk] at hx
  simp only [recordAt, List.mem_cons, List.mem_singleton, List.not_mem_nil, or_false] at hx
  rcases hx with h | h | h | h | h
  · rw [h]; exact toSigned28_bounds _
  · rw [h]; exact lastCaptured_bounds _ _ _
  · rw [h]; exact lastCaptured_bounds _ _ _
  · rw [h]; exact lastCaptured_bounds _ _ _
  · rw [h]; exact lastCaptured_bounds _ _ _

end

end ICompare

namespace QuadInterp

section
variable {σ : Type} (M : Core σ QOut) (stim : Nat → Int) (junk : Nat → Int)
  (i_step iclocks : Nat) (tb : σ)

theorem recordAt_eq (n : Nat) :
    recordAt M stim junk i_step iclocks tb n = { bytes := 16, objs := [0, 0] } := by
  simp only [recordAt, captured_eq, sizeofLong]
  rfl

theorem quad_dbg_fp_eq (n : Nat) :
    (stateAt M stim junk i_step iclocks tb n).dbg_fp =
      ((List.range n).filter
        (fun k => decide ((outAt M stim junk i_step iclocks tb (k + 1)).o_ce ≠ 0))).map
        (recordAt M stim junk i_step iclocks tb) := by
  induction n with
  | zero => rfl
  | succ n ih =>
    rw [quad_stateAt_dbg_fp, List.range_succ, List.filter_append, List.map_append, ← ih]
    split_ifs with h <;> simp [h, recordAt_eq]

theorem quad_dbg_fp_bytes (n : Nat) :
    fileBytes (stateAt M stim junk i_step iclocks tb n).dbg_fp =
        16 * readyCount M stim junk i_step iclocks tb n ∧
      fileValues (stateAt M stim junk i_step iclocks tb n).dbg_fp =
        2 * readyCount M stim junk i_step iclocks tb n := by
  induction n with
  | zero => simp [stateAt, init, fileBytes, fileValues, readyCount]
  | succ n ih =>
    have hr : readyCount M stim junk i_step iclocks tb (n + 1) =
        readyCount M stim junk i_step iclocks tb n +
          if (outAt M stim junk i_step iclocks tb (n + 1)).o_ce ≠ 0 then 1 else 0 := by
      rw [readyCount, List.range_succ, List.countP_append, ← readyCount]
      split_ifs with h <;> simp [h]
    rw [quad_stateAt_dbg_fp, hr]
    split_ifs
    · rw [fileBytes_append, fileValues_append, ih.1, ih.2]
      simp only [List.length_cons, List.length_nil]
      omega
    · simpa using ih

end

end QuadInterp


/-! ## The claims -/

/-- C1, at the failing input.  When `fopen` of the debug file succeeds and
`fopen` of the source file returns `NULL`, icompare does not exit: its second
test looks at `dbg_fp` again, so whatever the second `fopen` returns the
simulation is entered with it.  A `NULL` debug file ends either driver with
`EXIT_FAILURE`. -/
theorem C1_source_open_failure_undetected :
    icompareOpen (some []) none = .ok (some [], none) ∧
    (∀ (f : FILE) (fopenSrc : Option FILE),
      icompareOpen (some f) fopenSrc = .ok (some f, fopenSrc)) ∧
    (∀ fopenSrc : Option FILE, icompareOpen none fopenSrc = .error EXIT_FAILURE) ∧
    quadinterpOpen none = .error EXIT_FAILURE := by
  refine ⟨rfl, fun f fopenSrc => rfl, fun fopenSrc => rfl, rfl⟩

/-- C2, at the failing input.  Both values quadinterp writes are `0` whatever
the ports hold: `(int)(vals[k] << (64-bits))` keeps the low 32 bits of a value
whose low `64-bits ≥ 36` bits are zero.  With `i_data = 1` and `o_data = 1` on
tick 40, on which the core sets `o_ce`, the record is `0, 0` while the
sign-extended port values are `1, 1`. -/
theorem C2_quadinterp_writes_zeros :
    (∀ (i_data : Nat) (o : QOut) (junk : Int),
      (QuadInterp.captured i_data o junk).take 2 = [0, 0]) ∧
    toSigned QuadInterp.INW 1 = 1 ∧ toSigned QuadInterp.OBITS 1 = 1 ∧
    (QuadInterp.stateAt (constCore (QOut.mk 1 1 0 0 0)) (fun _ => 1) (fun _ => 0) 0
      QuadInterp.iclocks () 40).i_data = 1 ∧
    (QuadInterp.outAt (constCore (QOut.mk 1 1 0 0 0)) (fun _ => 1) (fun _ => 0) 0
      QuadInterp.iclocks () 40).o_data = 1 ∧
    (QuadInterp.stateAt (constCore (QOut.mk 1 1 0 0 0)) (fun _ => 1) (fun _ => 0) 0
      QuadInterp.iclocks () 40).dbg_fp =
      (QuadInterp.stateAt (constCore (QOut.mk 1 1 0 0 0)) (fun _ => 1) (fun _ => 0) 0
        QuadInterp.iclocks () 39).dbg_fp ++ [{ bytes := 16, objs := [0, 0] }] := by
  refine ⟨fun i_data o junk => ?_, by decide, by decide, ?_, rfl, ?_⟩
  · rw [QuadInterp.captured_eq]; rfl
  · rw [QuadInterp.quad_stateAt_i_data _ _ _ _ _ _ (by decide) (by decide) 39]
    decide
  · rw [QuadInterp.quad_stateAt_dbg_fp]
    rfl

/-- C3.  The sign extension of icompare (shift left by `32-IBITS` as a 32-bit
`int`, then arithmetic shift right) maps every slot value `v` to a value in
`[-2^27, 2^27)` congruent to `v` modulo `2^28`, and applying it again changes
nothing.  Applied to a captured port value it gives the two's-complement value
of the low 28 bits of the port.  Every record written holds exactly that in
every field: on an iteration on which `o_ln_ce` is non-zero one record is
appended whose field 0 is the sign-extended `o_nn_data` just captured and whose
fields 1 to 4 are the two's-complement values of the low 28 bits of the port
value captured into the slot (`0` for a slot nothing was captured into).  This
holds whether the slot holds the value as captured or a value that an earlier
write has extended already: after any number of iterations, extending what a
slot holds gives the 28-bit value of the port captured into it.  So every field
of every record in the debug file lies in `[-2^27, 2^27)`. -/
theorem C3_icompare_sign_extension :
    (∀ v : Int, -2 ^ 27 ≤ signExtend32 ICompare.IBITS v ∧
      signExtend32 ICompare.IBITS v < 2 ^ 27 ∧
      signExtend32 ICompare.IBITS v % 2 ^ 28 = v % 2 ^ 28 ∧
      signExtend32 ICompare.IBITS (signExtend32 ICompare.IBITS v) =
        signExtend32 ICompare.IBITS v) ∧
    (∀ port : Nat,
      signExtend32 ICompare.IBITS (toSigned 32 port) =
        (if (port : Int) % 2 ^ 28 < 2 ^ 27 then (port : Int) % 2 ^ 28
         else (port : Int) % 2 ^ 28 - 2 ^ 28) ∧
      toSigned ICompare.IBITS port = signExtend32 ICompare.IBITS (toSigned 32 port)) ∧
    (∀ (σ : Type) (M : Core σ IcOut) (stim : Nat → Int) (i_step : Nat) (tb : σ) (n : Nat),
      (ICompare.outAt M stim i_step ICompare.iclocks tb (n + 1)).o_ln_ce ≠ 0 →
      ∃ f1 f2 f3 f4 : Int,
        (ICompare.stateAt M stim i_step ICompare.iclocks tb (n + 1)).dbg_fp =
          (ICompare.stateAt M stim i_step ICompare.iclocks tb n).dbg_fp ++
            [{ bytes := 20,
               objs := [signExtend32 ICompare.IBITS (toSigned 32
                 (ICompare.outAt M stim i_step ICompare.iclocks tb (n + 1)).o_nn_data),
                 f1, f2, f3, f4] }] ∧
        ICompare.LatestCaptured
          (fun k => (ICompare.outAt M stim i_step ICompare.iclocks tb k).o_ln_ce)
          (fun k => (ICompare.outAt M stim i_step ICompare.iclocks tb k).o_ln_data) n f1 ∧
        ICompare.LatestCaptured
          (fun k => (ICompare.outAt M stim i_step ICompare.iclocks tb k).o_qf_ce)
          (fun k => (ICompare.outAt M stim i_step ICompare.iclocks tb k).o_qf_data) n f2 ∧
        ICompare.LatestCaptured
          (fun k => (ICompare.outAt M stim i_step ICompare.iclocks tb k).o_qm_ce)
          (fun k => (ICompare.outAt M stim i_step ICompare.iclocks tb k).o_qm_data) n f3 ∧
        ICompare.LatestCaptured
          (fun k => (ICompare.outAt M stim i_step ICompare.iclocks tb k).o_qi_ce)
          (fun k => (ICompare.outAt M stim i_step ICompare.iclocks tb k).o_qi_data) n f4) ∧
    (∀ (σ : Type) (M : Core σ IcOut) (stim : Nat → Int) (i_step : Nat) (tb : σ) (n : Nat),
      ∃ a b c d e : Int,
        (ICompare.stateAt M stim i_step ICompare.iclocks tb n).vals = [a, b, c, d, e] ∧
        ICompare.LatestCaptured
          (fun k => (ICompare.outAt M stim i_step ICompare.iclocks tb k).o_ln_ce)
          (fun k => (ICompare.outAt M stim i_step ICompare.iclocks tb k).o_ln_data) n
          (signExtend32 ICompare.IBITS b) ∧
        ICompare.LatestCaptured
          (fun k => (ICompare.outAt M stim i_step ICompare.iclocks tb k).o_qf_ce)
          (fun k => (ICompare.outAt M stim i_step ICompare.iclocks tb k).o_qf_data) n
          (signExtend32 ICompare.IBITS c) ∧
        ICompare.LatestCaptured
          (fun k => (ICompare.outAt M stim i_step ICompare.iclocks tb k).o_qm_ce)
          (fun k => (ICompare.outAt M stim i_step ICompare.iclocks tb k).o_qm_data) n
          (signExtend32 ICompare.IBITS d) ∧
        ICompare.LatestCaptured
          (fun k => (ICompare.outAt M stim i_step ICompare.iclocks tb k).o_qi_ce)
          (fun k => (ICompare.outAt M stim i_step ICompare.iclocks tb k).o_qi_data) n
          (signExtend32 ICompare.IBITS e)) ∧
    (∀ (σ : Type) (M : Core σ IcOut) (stim : Nat → Int) (i_step : Nat) (tb : σ) (n : Nat)
      (c : Chunk) (x : Int),
      c ∈ (ICompare.stateAt M stim i_step ICompare.iclocks tb n).dbg_fp → x ∈ c.objs →
        -2 ^ 27 ≤ x ∧ x < 2 ^ 27) := by
  refine ⟨fun v => ?_, fun port => ⟨?_, ?_⟩, ?_, ?_, ?_⟩
  · simp only [ICompare.IBITS, signExtend32_eq, toSigned28_idem]
    exact ⟨(toSigned28_bounds v).1, (toSigned28_bounds v).2, toSigned28_emod v, trivial⟩
  · simp only [ICompare.IBITS, signExtend32_eq, toSigned28_toSigned32]
    simp only [toSigned]
  · simp only [ICompare.IBITS, signExtend32_eq, toSigned28_toSigned32]
  · intro σ M stim i_step tb n hready
    refine ⟨_, _, _, _, ?_, ICompare.lastCaptured_spec _ _ n, ICompare.lastCaptured_spec _ _ n,
      ICompare.lastCaptured_spec _ _ n, ICompare.lastCaptured_spec _ _ n⟩
    rw [ICompare.stateAt_dbg_fp, if_pos hready]
    simp only [ICompare.IBITS, signExtend32_eq, toSigned28_toSigned32]
    rfl
  · intro σ M stim i_step tb n
    obtain ⟨a, b, c, d, e, h, hb, hc, hd, he⟩ :=
      ICompare.slots_inv M stim i_step ICompare.iclocks tb n
    refine ⟨a, b, c, d, e, h, ?_, ?_, ?_, ?_⟩
    · simp only [ICompare.IBITS, signExtend32_eq]
      rw [hb]; exact ICompare.lastCaptured_spec _ _ n
    · simp only [ICompare.IBITS, signExtend32_eq]
      rw [hc]; exact ICompare.lastCaptured_spec _ _ n
    · simp only [ICompare.IBITS, signExtend32_eq]
      rw [hd]; exact ICompare.lastCaptured_spec _ _ n
    · simp only [ICompare.IBITS, signExtend32_eq]
      rw [he]; exact ICompare.lastCaptured_spec _ _ n
  · intro σ M stim i_step tb n c x hc hx
    exact ICompare.dbg_fp_range M stim i_step ICompare.iclocks tb n c x hc hx

/-- C3 on the second iteration of a core whose outputs never change:
`o_ln_ce = 1`, `o_nn_data = 0xFFFFFFF`, `o_ln_data = 0x8000000`, `o_qf_ce = 1`,
`o_qf_data = 0x10000003`, `o_qm_ce = 0`, `o_qi_ce = 0`.  The second record is
`-1, -2^27, 3, 0, 0`. -/
theorem C3_icompare_sign_extension_witness :
    (ICompare.outAt (constCore (IcOut.mk 1 (2 ^ 28 - 1) (2 ^ 27) 1 (2 ^ 28 + 3) 0 9 0 9))
      (fun _ => 0) 0 ICompare.iclocks () 2).o_ln_ce ≠ 0 ∧
    (∃ f1 f2 f3 f4 : Int,
      (ICompare.stateAt (constCore (IcOut.mk 1 (2 ^ 28 - 1) (2 ^ 27) 1 (2 ^ 28 + 3) 0 9 0 9))
        (fun _ => 0) 0 ICompare.iclocks () 2).dbg_fp =
        (ICompare.stateAt (constCore (IcOut.mk 1 (2 ^ 28 - 1) (2 ^ 27) 1 (2 ^ 28 + 3) 0 9 0 9))
          (fun _ => 0) 0 ICompare.iclocks () 1).dbg_fp ++
          [{ bytes := 20, objs := [-1, f1, f2, f3, f4] }]) ∧
    (ICompare.stateAt (constCore (IcOut.mk 1 (2 ^ 28 - 1) (2 ^ 27) 1 (2 ^ 28 + 3) 0 9 0 9))
      (fun _ => 0) 0 ICompare.iclocks () 2).dbg_fp =
      [{ bytes := 20, objs := [-1, 0, 0, 0, 0] },
       { bytes := 20, objs := [-1, -134217728, 3, 0, 0] }] :=
  ⟨by decide,
    let ⟨f1, f2, f3, f4, h, _⟩ := C3_icompare_sign_extension.2.2.1 Unit
      (constCore (IcOut.mk 1 (2 ^ 28 - 1) (2 ^ 27) 1 (2 ^ 28 + 3) 0 9 0 9))
      (fun _ => 0) 0 () 1 (by decide)
    ⟨f1, f2, f3, f4, h⟩,
    by decide⟩

theorem step_icompare : stepOfRates 625000 82000000 = some 32736031 := by
  apply @step_of_quotient 625000 82000000 8787511468039992 (-60) 32736031
  · exact_mod_cast toDouble_natCast 625000 33 (by norm_num) (by norm_num)
  · exact_mod_cast toDouble_natCast 82000000 26 (by norm_num) (by norm_num)
  · have h := @toDouble_eq (625000 / 82000000) (-8) 8787511468039992
      (by norm_num) (by norm_num) (by rw [abs_lt]; constructor <;> norm_num)
    norm_num at h ⊢
    exact h
  · norm_num
  · norm_num
  · norm_num
  · norm_num
  · norm_num

theorem step_quadinterp : stepOfRates 2500000 82000000 = some 130944124 := by
  apply @step_of_quotient 2500000 82000000 8787511468039992 (-58) 130944124
  · exact_mod_cast toDouble_natCast 2500000 31 (by norm_num) (by norm_num)
  · exact_mod_cast toDouble_natCast 82000000 26 (by norm_num) (by norm_num)
  · have h := @toDouble_eq (2500000 / 82000000) (-6) 8787511468039992
      (by norm_num) (by norm_num) (by rw [abs_lt]; constructor <;> norm_num)
    norm_num at h ⊢
    exact h
  · norm_num
  · norm_num
  · norm_num
  · norm_num
  · norm_num

/-- C4, as amended.  The step constant each driver stores in `i_step` is the
quotient of the rates in double precision, scaled by `2^32` and truncated.  For
the rates of the drivers it is the floor of `input_rate * 2^32 / output_rate`
taken in exact rational arithmetic: `⌊2^28*5/41⌋` in icompare and `⌊2^30*5/41⌋`
in quadinterp.  For every pair of rates with
`0 ≤ input_rate < output_rate < CLOCKRATE_HZ` that floor lies within
`0 ... 2^32-1`, the conversion of the computed double to `unsigned int` is
defined, and the value stored lies within `0 ... 2^32-1` and is that floor or
that floor plus one.  The floor lies within `0 ... 2^32-1` as well for every pair
of rates with `0 ≤ input_rate` that passes the two assertions as either driver
writes them. -/
theorem C4_step_constant :
    (∃ v : Nat, ICompare.i_step = some v ∧
      (v : ℤ) = ⌊(ICompare.input_rate : ℚ) * 2 ^ 32 / ICompare.output_rate⌋ ∧
      (v : ℤ) = ⌊(2 ^ 28 * 5 / 41 : ℚ)⌋) ∧
    (∃ v : Nat, QuadInterp.i_step = some v ∧
      (v : ℤ) = ⌊(QuadInterp.input_rate : ℚ) * 2 ^ 32 / QuadInterp.output_rate⌋ ∧
      (v : ℤ) = ⌊(2 ^ 30 * 5 / 41 : ℚ)⌋) ∧
    (∀ input_rate output_rate : ℤ,
      0 ≤ input_rate → input_rate < output_rate → output_rate < CLOCKRATE_HZ →
        0 ≤ ⌊(input_rate : ℚ) * 2 ^ 32 / output_rate⌋ ∧
        ⌊(input_rate : ℚ) * 2 ^ 32 / output_rate⌋ ≤ 2 ^ 32 - 1 ∧
        ∃ v : Nat, stepOfRates input_rate output_rate = some v ∧ v ≤ 2 ^ 32 - 1 ∧
          ⌊(input_rate : ℚ) * 2 ^ 32 / output_rate⌋ ≤ v ∧
          (v : ℤ) ≤ ⌊(input_rate : ℚ) * 2 ^ 32 / output_rate⌋ + 1) ∧
    (∀ input_rate output_rate : ℤ, 0 ≤ input_rate →
      (ICompare.assertsPass input_rate output_rate = true ∨
        QuadInterp.assertsPass input_rate output_rate = true) →
        0 ≤ ⌊(input_rate : ℚ) * 2 ^ 32 / output_rate⌋ ∧
        ⌊(input_rate : ℚ) * 2 ^ 32 / output_rate⌋ ≤ 2 ^ 32 - 1) := by
  have hi : ICompare.input_rate = 625000 := by decide
  have hq : QuadInterp.input_rate = 2500000 := by decide
  refine ⟨⟨32736031, ?_, ?_, ?_⟩, ⟨130944124, ?_, ?_, ?_⟩, ?_, ?_⟩
  · have ha : ICompare.assertsPass ICompare.input_rate ICompare.output_rate = true := by decide
    rw [ICompare.i_step, if_pos ha, hi, ICompare.output_rate]
    exact step_icompare
  · rw [hi, ICompare.output_rate, eq_comm, Int.floor_eq_iff]
    constructor <;> norm_num
  · rw [eq_comm, Int.floor_eq_iff]
    constructor <;> norm_num
  · have ha : QuadInterp.assertsPass QuadInterp.input_rate QuadInterp.output_rate = true := by
      decide
    rw [QuadInterp.i_step, if_pos ha, hq, QuadInterp.output_rate]
    exact step_quadinterp
  · rw [hq, QuadInterp.output_rate, eq_comm, Int.floor_eq_iff]
    constructor <;> norm_num
  · rw [eq_comm, Int.floor_eq_iff]
    constructor <;> norm_num
  · intro a b h0 h1 h2
    obtain ⟨v, hv, hv2, hv3, hv4⟩ := stepOfRates_near_floor a b h0 h1 h2
    exact ⟨(floor_step_range a b h0 h1).1, (floor_step_range a b h0 h1).2, v, hv,
      by omega, hv3, hv4⟩
  · intro a b h0 h
    have hab : a < b := by
      rcases h with h | h
      · simp only [ICompare.assertsPass, Bool.and_eq_true, decide_eq_true_eq] at h
        exact h.2
      · simp only [QuadInterp.assertsPass, Bool.and_eq_true, decide_eq_true_eq] at h
        exact h.2
    exact floor_step_range a b h0 hab

/-- C4 as stated fails for other rates than those of the drivers.  With
`iclocks = 2`, so `input_rate = 50000000`, and `output_rate = 52445486`, both
assertions of either driver pass, the quotient rounds up in double precision, and
the value stored in `i_step` is 4094696821 while the floor of
`input_rate * 2^32 / output_rate` in exact rational arithmetic is 4094696820. -/
theorem C4_step_exceeds_exact_floor :
    ((CLOCKRATE_HZ / 2 : ℕ) : ℤ) = 50000000 ∧
    ICompare.assertsPass 50000000 52445486 = true ∧
    QuadInterp.assertsPass 50000000 52445486 = true ∧
    stepOfRates 50000000 52445486 = some 4094696821 ∧
    ⌊((50000000 : ℤ) : ℚ) * 2 ^ 32 / ((52445486 : ℤ) : ℚ)⌋ = 4094696820 ∧
    stepOfRates 50000000 52445486 ≠
      some (⌊((50000000 : ℤ) : ℚ) * 2 ^ 32 / ((52445486 : ℤ) : ℚ)⌋).toNat := by
  have hs : stepOfRates 50000000 52445486 = some 4094696821 := by
    apply @step_of_quotient 50000000 52445486 8587201627553792 (-53) 4094696821
    · exact_mod_cast toDouble_natCast 50000000 27 (by norm_num) (by norm_num)
    · exact_mod_cast toDouble_natCast 52445486 27 (by norm_num) (by norm_num)
    · have h := @toDouble_eq (50000000 / 52445486) (-1) 8587201627553792
        (by norm_num) (by norm_num) (by rw [abs_lt]; constructor <;> norm_num)
      norm_num at h ⊢
      exact h
    · norm_num
    · norm_num
    · norm_num
    · norm_num
    · norm_num
  have hf : ⌊((50000000 : ℤ) : ℚ) * 2 ^ 32 / ((52445486 : ℤ) : ℚ)⌋ = 4094696820 := by
    rw [Int.floor_eq_iff]
    constructor <;> norm_num
  refine ⟨by decide, by decide, by decide, hs, hf, ?_⟩
  rw [hs, hf]
  decide

theorem ICompare.tick_tb {σ : Type} (M : Core σ IcOut) (stim : Nat → Int)
    (i_step iclocks : Nat) (s : ICompare.State σ) :
    (ICompare.tick M stim i_step iclocks s).tb =
      toggleClock M (ICompare.tick M stim i_step iclocks s).i_ce i_step
        (ICompare.tick M stim i_step iclocks s).i_data s.tb := by
  simp only [ICompare.tick, ICompare.advance]
  split_ifs <;> rfl

theorem QuadInterp.quad_tick_tb {σ : Type} (M : Core σ QOut) (stim : Nat → Int)
    (i_step iclocks : Nat) (s : QuadInterp.State σ) :
    (QuadInterp.tick M stim i_step iclocks s).tb =
      toggleClock M (QuadInterp.tick M stim i_step iclocks s).i_ce i_step
        (QuadInterp.tick M stim i_step iclocks s).i_data s.tb := by
  simp only [QuadInterp.tick, QuadInterp.advance]
  split_ifs <;> rfl

theorem dvd_spacing (d n : Nat) (h : d ∣ n + 1) :
    d ∣ n + 1 + d ∧ ∀ j, 0 < j → j < d → ¬ d ∣ n + 1 + j := by
  refine ⟨Nat.dvd_add h (dvd_refl d), fun j hj0 hjd hc => ?_⟩
  have hj : d ∣ j := (Nat.dvd_add_right h).1 hc
  exact absurd (Nat.le_of_dvd hj0 hj) (by omega)

/-- C5.  In both drivers, whatever the core does, on iteration `n + 1` of the
loop (`n + 1 = 1, 2, ...`) `i_ce` is `1` when `iclocks` divides `n + 1` and `0`
otherwise; the three `eval` calls of the iteration see this `i_ce`; `i_data` is
the masked new sample on the iterations with `i_ce = 1` and keeps its value on
the others; after an iteration with `i_ce = 1` the next one is exactly `iclocks`
iterations later (160 in icompare, 40 in quadinterp). -/
theorem C5_input_cadence :
    (∀ (σ : Type) (M : Core σ IcOut) (stim : Nat → Int) (i_step : Nat) (tb : σ) (n : Nat),
      ((ICompare.stateAt M stim i_step ICompare.iclocks tb (n + 1)).i_ce = 1 ↔ 160 ∣ n + 1) ∧
      ((ICompare.stateAt M stim i_step ICompare.iclocks tb (n + 1)).i_ce = 0 ↔ ¬ 160 ∣ n + 1) ∧
      (ICompare.stateAt M stim i_step ICompare.iclocks tb (n + 1)).tb =
        toggleClock M (if 160 ∣ n + 1 then 1 else 0) i_step
          (ICompare.stateAt M stim i_step ICompare.iclocks tb (n + 1)).i_data
          (ICompare.stateAt M stim i_step ICompare.iclocks tb n).tb ∧
      (ICompare.stateAt M stim i_step ICompare.iclocks tb (n + 1)).i_data =
        (if 160 ∣ n + 1 then maskBits ICompare.IBITS (stim ((n + 2) % 2 ^ 32))
         else (ICompare.stateAt M stim i_step ICompare.iclocks tb n).i_data) ∧
      ((ICompare.stateAt M stim i_step ICompare.iclocks tb (n + 1)).i_ce = 1 →
        (ICompare.stateAt M stim i_step ICompare.iclocks tb (n + 1 + 160)).i_ce = 1 ∧
        ∀ j, 0 < j → j < 160 →
          (ICompare.stateAt M stim i_step ICompare.iclocks tb (n + 1 + j)).i_ce = 0)) ∧
    (∀ (σ : Type) (M : Core σ QOut) (stim junk : Nat → Int) (i_step : Nat) (tb : σ) (n : Nat),
      ((QuadInterp.stateAt M stim junk i_step QuadInterp.iclocks tb (n + 1)).i_ce = 1 ↔
        40 ∣ n + 1) ∧
      ((QuadInterp.stateAt M stim junk i_step QuadInterp.iclocks tb (n + 1)).i_ce = 0 ↔
        ¬ 40 ∣ n + 1) ∧
      (QuadInterp.stateAt M stim junk i_step QuadInterp.iclocks tb (n + 1)).tb =
        toggleClock M (if 40 ∣ n + 1 then 1 else 0) i_step
          (QuadInterp.stateAt M stim junk i_step QuadInterp.iclocks tb (n + 1)).i_data
          (QuadInterp.stateAt M stim junk i_step QuadInterp.iclocks tb n).tb ∧
      (QuadInterp.stateAt M stim junk i_step QuadInterp.iclocks tb (n + 1)).i_data =
        (if 40 ∣ n + 1 then maskBits QuadInterp.INW (stim ((n + 2) % 2 ^ 32))
         else (QuadInterp.stateAt M stim junk i_step QuadInterp.iclocks tb n).i_data) ∧
      ((QuadInterp.stateAt M stim junk i_step QuadInterp.iclocks tb (n + 1)).i_ce = 1 →
        (QuadInterp.stateAt M stim junk i_step QuadInterp.iclocks tb (n + 1 + 40)).i_ce = 1 ∧
        ∀ j, 0 < j → j < 40 →
          (QuadInterp.stateAt M stim junk i_step QuadInterp.iclocks tb (n + 1 + j)).i_ce = 0)) := by
  constructor
  · intro σ M stim i_step tb n
    have hce := fun k => ICompare.stateAt_i_ce M stim i_step ICompare.iclocks tb
      (by decide) (by decide) k
    have hda := ICompare.stateAt_i_data M stim i_step ICompare.iclocks tb
      (by decide) (by decide) n
    simp only [ICompare.iclocks] at hce hda ⊢
    refine ⟨?_, ?_, ?_, hda, ?_⟩
    · rw [hce]; split_ifs with h <;> simp [h]
    · rw [hce]; split_ifs with h <;> simp [h]
    · rw [← hce n]
      conv_lhs => rw [ICompare.stateAt_succ_eq, ICompare.record_tb]
      rw [ICompare.stateAt_succ_eq, ICompare.record_i_ce, ICompare.record_i_data]
      exact ICompare.tick_tb M stim i_step 160 _
    · intro h1
      have hd : 160 ∣ n + 1 := by
        by_contra hc
        rw [hce, if_neg hc] at h1
        exact absurd h1 (by decide)
      obtain ⟨s1, s2⟩ := dvd_spacing 160 n hd
      refine ⟨?_, fun j hj0 hj1 => ?_⟩
      · rw [show n + 1 + 160 = (n + 160) + 1 by ring, hce, if_pos (by
          rw [show n + 160 + 1 = n + 1 + 160 by ring]; exact s1)]
      · rw [show n + 1 + j = (n + j) + 1 by ring, hce, if_neg (by
          rw [show n + j + 1 = n + 1 + j by ring]; exact s2 j hj0 hj1)]
  · intro σ M stim junk i_step tb n
    have hce := fun k => QuadInterp.quad_stateAt_i_ce M stim junk i_step QuadInterp.iclocks tb
      (by decide) (by decide) k
    have hda := QuadInterp.quad_stateAt_i_data M stim junk i_step QuadInterp.iclocks tb
      (by decide) (by decide) n
    simp only [QuadInterp.iclocks] at hce hda ⊢
    refine ⟨?_, ?_, ?_, hda, ?_⟩
    · rw [hce]; split_ifs with h <;> simp [h]
    · rw [hce]; split_ifs with h <;> simp [h]
    · rw [← hce n]
      conv_lhs => rw [QuadInterp.stateAt, QuadInterp.body, QuadInterp.quad_record_tb]
      rw [QuadInterp.stateAt, QuadInterp.body, QuadInterp.quad_record_i_ce,
        QuadInterp.quad_record_i_data]
      exact QuadInterp.quad_tick_tb M stim i_step 40 _
    · intro h1
      have hd : 40 ∣ n + 1 := by
        by_contra hc
        rw [hce, if_neg hc] at h1
        exact absurd h1 (by decide)
      obtain ⟨s1, s2⟩ := dvd_spacing 40 n hd
      refine ⟨?_, fun j hj0 hj1 => ?_⟩
      · rw [show n + 1 + 40 = (n + 40) + 1 by ring, hce, if_pos (by
          rw [show n + 40 + 1 = n + 1 + 40 by ring]; exact s1)]
      · rw [show n + 1 + j = (n + j) + 1 by ring, hce, if_neg (by
          rw [show n + j + 1 = n + 1 + j by ring]; exact s2 j hj0 hj1)]


/-- C6, the complete run.  Whatever the core does, the loop of either driver
ends after `MAXTICKS - 1 = 16*32*iclocks - 1` iterations (the tick counter starts
at 1), and `i_ce` is set on 511 of them, not on `16*32 = 512`; icompare's source
file holds 511 samples. -/
theorem C6_run_injects_511_samples :
    (∀ (σ : Type) (M : Core σ IcOut) (stim : Nat → Int) (i_step : Nat) (tb : σ),
      ICompare.simulate M stim i_step ICompare.iclocks (MAXTICKS ICompare.iclocks) tb =
        some (ICompare.stateAt M stim i_step ICompare.iclocks tb
          (MAXTICKS ICompare.iclocks - 1)) ∧
      MAXTICKS ICompare.iclocks - 1 = 16 * 32 * 160 - 1 ∧
      ICompare.sampleCount M stim i_step ICompare.iclocks tb
        (MAXTICKS ICompare.iclocks - 1) = 511 ∧
      (ICompare.stateAt M stim i_step ICompare.iclocks tb
        (MAXTICKS ICompare.iclocks - 1)).src_fp.length = 511) ∧
    (∀ (σ : Type) (M : Core σ QOut) (stim junk : Nat → Int) (i_step : Nat) (tb : σ),
      QuadInterp.simulate M stim junk i_step QuadInterp.iclocks (MAXTICKS QuadInterp.iclocks)
          tb =
        some (QuadInterp.stateAt M stim junk i_step QuadInterp.iclocks tb
          (MAXTICKS QuadInterp.iclocks - 1)) ∧
      MAXTICKS QuadInterp.iclocks - 1 = 16 * 32 * 40 - 1 ∧
      QuadInterp.sampleCount M stim junk i_step QuadInterp.iclocks tb
        (MAXTICKS QuadInterp.iclocks - 1) = 511) := by
  constructor
  · intro σ M stim i_step tb
    refine ⟨?_, by decide, ?_, ?_⟩
    · have h := ICompare.simulate_eq M stim i_step ICompare.iclocks tb
      rwa [show MAXTICKS ICompare.iclocks - 1 + 1 = MAXTICKS ICompare.iclocks by decide] at h
    · rw [ICompare.sampleCount_eq M stim i_step ICompare.iclocks tb (by decide) (by decide)]
      decide
    · rw [ICompare.length_src_fp M stim i_step ICompare.iclocks tb (by decide) (by decide)]
      decide
  · intro σ M stim junk i_step tb
    refine ⟨?_, by decide, ?_⟩
    · have h := QuadInterp.quad_simulate_eq M stim junk i_step QuadInterp.iclocks tb
      rwa [show MAXTICKS QuadInterp.iclocks - 1 + 1 = MAXTICKS QuadInterp.iclocks by decide]
        at h
    · rw [QuadInterp.quad_sampleCount_eq M stim junk i_step QuadInterp.iclocks tb (by decide)
        (by decide)]
      decide

/-- C7.  Whatever the core outputs, iteration `n + 1` of icompare appends
exactly one record to the debug file when `o_ln_ce` is non-zero and leaves the
file as it is when `o_ln_ce` is zero; after `n` iterations the file is the list
of the records of the ready iterations in iteration order, so it holds as many
records as there were ready iterations; the loop ends, and this holds of the
file of the complete run.  The same holds of quadinterp and `o_ce`. -/
theorem C7_one_record_per_ready_iteration :
    (∀ (σ : Type) (M : Core σ IcOut) (stim : Nat → Int) (i_step : Nat) (tb : σ),
      (∀ n : Nat,
        (ICompare.stateAt M stim i_step ICompare.iclocks tb (n + 1)).dbg_fp =
          (if (ICompare.outAt M stim i_step ICompare.iclocks tb (n + 1)).o_ln_ce ≠ 0 then
            (ICompare.stateAt M stim i_step ICompare.iclocks tb n).dbg_fp ++
              [ICompare.recordAt M stim i_step ICompare.iclocks tb n]
          else (ICompare.stateAt M stim i_step ICompare.iclocks tb n).dbg_fp) ∧
        (ICompare.stateAt M stim i_step ICompare.iclocks tb n).dbg_fp =
          ((List.range n).filter (fun k =>
            decide ((ICompare.outAt M stim i_step ICompare.iclocks tb (k + 1)).o_ln_ce ≠ 0))).map
            (ICompare.recordAt M stim i_step ICompare.iclocks tb) ∧
        (ICompare.stateAt M stim i_step ICompare.iclocks tb n).dbg_fp.length =
          ICompare.readyCount M stim i_step ICompare.iclocks tb n) ∧
      ∃ final, ICompare.simulate M stim i_step ICompare.iclocks (MAXTICKS ICompare.iclocks) tb =
          some final ∧
        final.dbg_fp.length =
          ICompare.readyCount M stim i_step ICompare.iclocks tb
            (MAXTICKS ICompare.iclocks - 1)) ∧
    (∀ (σ : Type) (M : Core σ QOut) (stim junk : Nat → Int) (i_step : Nat) (tb : σ),
      (∀ n : Nat,
        (QuadInterp.stateAt M stim junk i_step QuadInterp.iclocks tb (n + 1)).dbg_fp =
          (if (QuadInterp.outAt M stim junk i_step QuadInterp.iclocks tb (n + 1)).o_ce ≠ 0 then
            (QuadInterp.stateAt M stim junk i_step QuadInterp.iclocks tb n).dbg_fp ++
              [QuadInterp.recordAt M stim junk i_step QuadInterp.iclocks tb n]
          else (QuadInterp.stateAt M stim junk i_step QuadInterp.iclocks tb n).dbg_fp) ∧
        (QuadInterp.stateAt M stim junk i_step QuadInterp.iclocks tb n).dbg_fp =
          ((List.range n).filter (fun k =>
            decide ((QuadInterp.outAt M stim junk i_step QuadInterp.iclocks tb
              (k + 1)).o_ce ≠ 0))).map
            (QuadInterp.recordAt M stim junk i_step QuadInterp.iclocks tb) ∧
        (QuadInterp.stateAt M stim junk i_step QuadInterp.iclocks tb n).dbg_fp.length =
          QuadInterp.readyCount M stim junk i_step QuadInterp.iclocks tb n) ∧
      ∃ final, QuadInterp.simulate M stim junk i_step QuadInterp.iclocks
          (MAXTICKS QuadInterp.iclocks) tb = some final ∧
        final.dbg_fp.length =
          QuadInterp.readyCount M stim junk i_step QuadInterp.iclocks tb
            (MAXTICKS QuadInterp.iclocks - 1)) := by
  constructor
  · intro σ M stim i_step tb
    refine ⟨fun n => ⟨ICompare.stateAt_dbg_fp M stim i_step _ tb n,
      ICompare.dbg_fp_eq M stim i_step _ tb n, ICompare.length_dbg_fp M stim i_step _ tb n⟩,
      _, ?_, ICompare.length_dbg_fp M stim i_step _ tb _⟩
    have h := ICompare.simulate_eq M stim i_step ICompare.iclocks tb
    rwa [show MAXTICKS ICompare.iclocks - 1 + 1 = MAXTICKS ICompare.iclocks by decide] at h
  · intro σ M stim junk i_step tb
    refine ⟨fun n => ⟨?_, QuadInterp.quad_dbg_fp_eq M stim junk i_step _ tb n,
      QuadInterp.quad_length_dbg_fp M stim junk i_step _ tb n⟩,
      _, ?_, QuadInterp.quad_length_dbg_fp M stim junk i_step _ tb _⟩
    · rw [QuadInterp.recordAt_eq]
      exact QuadInterp.quad_stateAt_dbg_fp M stim junk i_step _ tb n
    · have h := QuadInterp.quad_simulate_eq M stim junk i_step QuadInterp.iclocks tb
      rwa [show MAXTICKS QuadInterp.iclocks - 1 + 1 = MAXTICKS QuadInterp.iclocks by decide]
        at h


/-- C8, with the failing input.  Both files of icompare are 4 bytes long per
integer written (records of 20 bytes, samples of 4 bytes).  The file of
quadinterp is not: each record is two `long`s written with `sizeof(long)`, 16
bytes for 2 values, so its length is 8 bytes per value; after one iteration of a
core that sets `o_ce` it is 16 bytes long and holds 2 values. -/
theorem C8_quadinterp_records_are_longs :
    (∀ (σ : Type) (M : Core σ IcOut) (stim : Nat → Int) (i_step : Nat) (tb : σ) (n : Nat),
      fileBytes (ICompare.stateAt M stim i_step ICompare.iclocks tb n).dbg_fp =
        4 * fileValues (ICompare.stateAt M stim i_step ICompare.iclocks tb n).dbg_fp ∧
      fileBytes (ICompare.stateAt M stim i_step ICompare.iclocks tb n).dbg_fp =
        20 * ICompare.readyCount M stim i_step ICompare.iclocks tb n ∧
      fileBytes (ICompare.stateAt M stim i_step ICompare.iclocks tb n).src_fp =
        4 * fileValues (ICompare.stateAt M stim i_step ICompare.iclocks tb n).src_fp) ∧
    (∀ (σ : Type) (M : Core σ QOut) (stim junk : Nat → Int) (i_step : Nat) (tb : σ) (n : Nat),
      fileBytes (QuadInterp.stateAt M stim junk i_step QuadInterp.iclocks tb n).dbg_fp =
        8 * fileValues (QuadInterp.stateAt M stim junk i_step QuadInterp.iclocks tb n).dbg_fp ∧
      fileBytes (QuadInterp.stateAt M stim junk i_step QuadInterp.iclocks tb n).dbg_fp =
        16 * QuadInterp.readyCount M stim junk i_step QuadInterp.iclocks tb n) ∧
    fileBytes (QuadInterp.stateAt (constCore (QOut.mk 1 0 0 0 0)) (fun _ => 0) (fun _ => 0) 0
      QuadInterp.iclocks () 1).dbg_fp = 16 ∧
    fileValues (QuadInterp.stateAt (constCore (QOut.mk 1 0 0 0 0)) (fun _ => 0) (fun _ => 0) 0
      QuadInterp.iclocks () 1).dbg_fp = 2 := by
  refine ⟨fun σ M stim i_step tb n => ?_, fun σ M stim junk i_step tb n => ?_, ?_, ?_⟩
  · obtain ⟨h1, h2⟩ := ICompare.dbg_fp_bytes M stim i_step ICompare.iclocks tb n
    obtain ⟨h3, h4⟩ := ICompare.src_fp_bytes M stim i_step ICompare.iclocks tb
      (by decide) (by decide) n
    rw [h1, h2, h3, h4]
    exact ⟨by ring, rfl, rfl⟩
  · obtain ⟨h1, h2⟩ := QuadInterp.quad_dbg_fp_bytes M stim junk i_step QuadInterp.iclocks tb n
    rw [h1, h2]
    exact ⟨by ring, rfl⟩
  · rw [QuadInterp.quad_stateAt_dbg_fp]
    rfl
  · rw [QuadInterp.quad_stateAt_dbg_fp]
    rfl

/-- C9.  For a sample `os` with `-MAXIV ≤ os ≤ MAXIV`, `MAXIV = 2^27-1`, the value icompare
presents on `i_data`, `os & (2^28-1)`, is the residue of `os` modulo `2^28`, lies
in `[0, 2^28)`, and the sign extension of icompare gives back `os`; on an
iteration that presents the sample `os`, `os` is what is appended to the source
file and `os & (2^28-1)` is what `i_data` holds. -/
theorem C9_source_sample_agrees (os : Int) (hlo : -(ICompare.MAXIV : Int) ≤ os)
    (hhi : os ≤ (ICompare.MAXIV : Int)) :
    maskBits ICompare.IBITS os = (os % 2 ^ 64).toNat &&& (2 ^ 28 - 1) ∧
    (maskBits ICompare.IBITS os : Int) = os % 2 ^ 28 ∧
    maskBits ICompare.IBITS os < 2 ^ 28 ∧
    signExtend32 ICompare.IBITS (toSigned 32 (maskBits ICompare.IBITS os)) = os ∧
    (∀ (σ : Type) (M : Core σ IcOut) (stim : Nat → Int) (i_step : Nat) (tb : σ) (n : Nat),
      160 ∣ n + 1 → stim ((n + 2) % 2 ^ 32) = os →
        (ICompare.stateAt M stim i_step ICompare.iclocks tb (n + 1)).i_data =
          maskBits ICompare.IBITS os ∧
        (ICompare.stateAt M stim i_step ICompare.iclocks tb (n + 1)).src_fp =
          (ICompare.stateAt M stim i_step ICompare.iclocks tb n).src_fp ++
            [{ bytes := 4, objs := [os] }]) := by
  have hm := maskBits28_eq os
  have hM : (ICompare.MAXIV : Int) = 134217727 := by decide
  rw [hM] at hlo hhi
  refine ⟨rfl, hm, maskBits_lt 28 os, ?_, ?_⟩
  · simp only [ICompare.IBITS, signExtend32_eq, toSigned28_toSigned32, hm, toSigned]
    norm_num
    split_ifs <;> omega
  · intro σ M stim i_step tb n hd hs
    have h1 := ICompare.stateAt_i_data M stim i_step ICompare.iclocks tb
      (by decide) (by decide) n
    have h2 := ICompare.stateAt_src_fp M stim i_step ICompare.iclocks tb
      (by decide) (by decide) n
    simp only [ICompare.iclocks] at h1 h2 ⊢
    rw [if_pos hd, hs] at h1 h2
    exact ⟨h1, h2⟩

/-- C9 at the sample `os = -5`. -/
theorem C9_source_sample_agrees_witness :
    (-(ICompare.MAXIV : Int) ≤ -5 ∧ (-5 : Int) ≤ (ICompare.MAXIV : Int)) ∧
    (maskBits ICompare.IBITS (-5) : Int) = (-5) % 2 ^ 28 ∧
    signExtend32 ICompare.IBITS (toSigned 32 (maskBits ICompare.IBITS (-5))) = -5 :=
  ⟨⟨by decide, by decide⟩,
    (C9_source_sample_agrees (-5) (by decide) (by decide)).2.1,
    (C9_source_sample_agrees (-5) (by decide) (by decide)).2.2.2.1⟩

/-- C10.  On an iteration `n + 1` of icompare on which `o_ln_ce` is non-zero,
one record of five fields is appended, after the records of the earlier ready
iterations: field 0 is the sign-extended `o_nn_data` of this iteration; field 1
is the sign-extended `o_ln_data` of the latest earlier iteration on which
`o_ln_ce` was non-zero, `0` when there is none; fields 2, 3 and 4 are the
sign-extended `o_qf_data`, `o_qm_data`, `o_qi_data` of the latest earlier
iteration on which `o_qf_ce`, `o_qm_ce`, `o_qi_ce` respectively was non-zero,
`0` when there is none. -/
theorem C10_record_fields (σ : Type) (M : Core σ IcOut) (stim : Nat → Int) (i_step : Nat)
    (tb : σ) (n : Nat)
    (hready : (ICompare.outAt M stim i_step ICompare.iclocks tb (n + 1)).o_ln_ce ≠ 0) :
    ∃ f1 f2 f3 f4 : Int,
      (ICompare.stateAt M stim i_step ICompare.iclocks tb (n + 1)).dbg_fp =
        (ICompare.stateAt M stim i_step ICompare.iclocks tb n).dbg_fp ++
          [{ bytes := 20,
             objs := [toSigned ICompare.IBITS
               (ICompare.outAt M stim i_step ICompare.iclocks tb (n + 1)).o_nn_data,
               f1, f2, f3, f4] }] ∧
      (ICompare.stateAt M stim i_step ICompare.iclocks tb n).dbg_fp.length =
        ICompare.readyCount M stim i_step ICompare.iclocks tb n ∧
      ICompare.LatestCaptured
        (fun k => (ICompare.outAt M stim i_step ICompare.iclocks tb k).o_ln_ce)
        (fun k => (ICompare.outAt M stim i_step ICompare.iclocks tb k).o_ln_data) n f1 ∧
      ICompare.LatestCaptured
        (fun k => (ICompare.outAt M stim i_step ICompare.iclocks tb k).o_qf_ce)
        (fun k => (ICompare.outAt M stim i_step ICompare.iclocks tb k).o_qf_data) n f2 ∧
      ICompare.LatestCaptured
        (fun k => (ICompare.outAt M stim i_step ICompare.iclocks tb k).o_qm_ce)
        (fun k => (ICompare.outAt M stim i_step ICompare.iclocks tb k).o_qm_data) n f3 ∧
      ICompare.LatestCaptured
        (fun k => (ICompare.outAt M stim i_step ICompare.iclocks tb k).o_qi_ce)
        (fun k => (ICompare.outAt M stim i_step ICompare.iclocks tb k).o_qi_data) n f4 := by
  refine ⟨_, _, _, _, ?_, ICompare.length_dbg_fp M stim i_step _ tb n,
    ICompare.lastCaptured_spec _ _ n, ICompare.lastCaptured_spec _ _ n,
    ICompare.lastCaptured_spec _ _ n, ICompare.lastCaptured_spec _ _ n⟩
  rw [ICompare.stateAt_dbg_fp, if_pos hready]
  rfl

/-- C10 at the second iteration of a core whose outputs never change:
`o_ln_ce = 1`, `o_nn_data = 5`, `o_ln_data = 6`, `o_qf_ce = 0`. -/
theorem C10_record_fields_witness :
    (ICompare.outAt (constCore (IcOut.mk 1 5 6 0 7 1 8 1 9)) (fun _ => 0) 0
      ICompare.iclocks () 2).o_ln_ce ≠ 0 ∧
    ∃ f1 f2 f3 f4 : Int,
      (ICompare.stateAt (constCore (IcOut.mk 1 5 6 0 7 1 8 1 9)) (fun _ => 0) 0
        ICompare.iclocks () 2).dbg_fp =
        (ICompare.stateAt (constCore (IcOut.mk 1 5 6 0 7 1 8 1 9)) (fun _ => 0) 0
          ICompare.iclocks () 1).dbg_fp ++
          [{ bytes := 20, objs := [5, f1, f2, f3, f4] }] :=
  ⟨by decide,
    let ⟨f1, f2, f3, f4, h, _⟩ := C10_record_fields Unit (constCore (IcOut.mk 1 5 6 0 7 1 8 1 9))
      (fun _ => 0) 0 () 1 (by decide)
    ⟨f1, f2, f3, f4, h⟩⟩

end Interp
